import Mathlib

/-!
# Verification of the vp process orchestrator core

Shallow embedding of the Go sources of the `vp` local process orchestrator
(resource allocator, process lifecycle manager, discovery engine), together
with proofs settling the specification claims about them.

Conventions of the embedding:
* Go `int` is modelled as `Int`; strings as `String` (`List Char` for the
  character-level scanning primitives).
* Side-effecting collaborators (the shell used by check commands, process
  spawning, signalling, liveness probes, `/proc` reads) are modelled as
  explicit oracle parameters; a function's emitted signals are returned as an
  action trace.
* Go maps are modelled as association lists; iteration order of a Go map is
  unspecified, the association-list order is the determinization used here.
* Loops whose bound is data-dependent are written with an explicit
  structural bound (so everything stays kernel-computable); for each such
  loop a fuel-sufficiency lemma shows the bound is never hit, so the fueled
  definition agrees with the unbounded source loop.
-/

deriving instance DecidableEq for Except

/-- `Resource` (resource.go): one claimed unit of a resource type.
The Go field `Type` is rendered `Ty` (`Type` is reserved in Lean). -/
structure Resource where
  Ty : String
  Value : String
  Owner : String
deriving Repr, DecidableEq

/-- `ResourceType` (resource.go): a named category of allocatable resource
with a shell check command and optional counter range. -/
structure ResourceType where
  Name : String
  Check : String
  Counter : Bool
  Start : Int
  End : Int
deriving Repr, DecidableEq

/-- `ProcessInfo` (discover.go): the introspection result for one PID.
The Go struct also carries a `ParentChain` field; it is populated only by
`GetParentChain`/`DiscoverProcess`, which here return the chain separately. -/
structure ProcessInfo where
  PID : Int
  PPID : Int
  Name : String
  Cmdline : String
  Exe : String
  Cwd : String
  Environ : List (String × String)
  Ports : List Int
deriving Repr, DecidableEq

/-- `Instance` (process.go, final draft): a running or stopped process
instance. -/
structure Instance where
  Name : String
  Template : String
  Command : String
  PID : Int
  Status : String
  Resources : List (String × String)
  Started : Int
  Cwd : String
  Managed : Bool
  Error : String
  LaunchScript : Option ProcessInfo
  ParentChain : List ProcessInfo
  Discovered : Bool
deriving Repr, DecidableEq

/-- `Template` (process.go): how to start a process. -/
structure Template where
  ID : String
  Label : String
  Command : String
  Resources : List String
  Vars : List (String × String)
deriving Repr, DecidableEq

/-- `State` (state.go, declared in the repository's design documents): the
shared aggregate. `Resources` is keyed by the (type, value) pair
(the Go map key is the string `type:value`). -/
structure State where
  Instances : List (String × Instance)
  Templates : List (String × Template)
  Resources : List ((String × String) × Resource)
  Counters : List (String × Int)
  Types : List (String × ResourceType)
deriving Repr, DecidableEq

/-- Insert-or-overwrite for association lists (Go map assignment). -/
def setA [DecidableEq κ] (k : κ) (v : α) : List (κ × α) → List (κ × α)
  | [] => [(k, v)]
  | (k', v') :: rest => if k = k' then (k, v) :: rest else (k', v') :: setA k v rest

/-- Go map read of `state.Counters[rtype]` (missing key reads as 0). -/
def counterOf (cs : List (String × Int)) (k : String) : Int :=
  (cs.lookup k).getD 0

/-- Modelled from the spec: `Claim(type, value, owner)` of the ResourceAllocator
(`func (s *State) ClaimResource(rtype, value, owner string)`, whose body is not
under src/): records a Resource entry under the (type, value) key without
re-validating. -/
def State.ClaimResource (s : State) (rtype value owner : String) : State :=
  { s with Resources := setA (rtype, value) ⟨rtype, value, owner⟩ s.Resources }

/-- Modelled from the spec: `Release(owner)` of the ResourceAllocator
(`func (s *State) ReleaseResources(owner string)`, whose body is not under
src/): removes every Resource entry owned by `owner`; idempotent. -/
def State.ReleaseResources (s : State) (owner : String) : State :=
  { s with Resources := s.Resources.filter (fun kv => !(kv.2.Owner == owner)) }

/-- Go `state.Save()` persists to disk; the in-memory aggregate is unchanged,
so in the embedding it is the identity. -/
def State.Save (s : State) : State := s

/-- The shell collaborator used by check commands: a command string is mapped
to `some exitCode`, or `none` when the command could not be executed at all.
Go's `cmd.Run()` returns a nil error exactly for outcome `some 0`. -/
def Sh : Type := String → Option Int

/-- `strings.ReplaceAll`, character-level worker. `fuel` is the length of the
remaining input (see `listReplaceAux_fuel`); the `0, a :: s` case is
unreachable from `listReplace`. Call sites always pass a nonempty pattern
(for `pat = []` this is the identity, unlike Go's interleaving semantics
for an empty pattern, which no caller exercises). -/
def listReplaceAux (pat val : List Char) : Nat → List Char → List Char
  | _, [] => []
  | 0, a :: s => a :: s
  | fuel + 1, a :: s =>
    if pat ≠ [] ∧ pat.isPrefixOf (a :: s) then
      val ++ listReplaceAux pat val fuel ((a :: s).drop pat.length)
    else
      a :: listReplaceAux pat val fuel s

/-- `strings.ReplaceAll(s, pat, val)` on character lists. -/
def listReplace (pat val s : List Char) : List Char :=
  listReplaceAux pat val s.length s

/-- `strings.ReplaceAll` on strings. -/
def strReplaceAll (s pat val : String) : String :=
  ⟨listReplace pat.data val.data s.data⟩

/-- `CheckResource(rt, value)` (resource.go): empty check command means always
available; otherwise `${value}` is substituted into the template and the
result is run through `sh -c`; available iff the run reports exit code 0
(an execution error counts as unavailable). -/
def CheckResource (sh : Sh) (rt : ResourceType) (value : String) : Bool :=
  if rt.Check = "" then true
  else sh (strReplaceAll rt.Check "$\x7bvalue\x7d" value) == some 0

/-- The `for v := current; v <= rt.End; v++` probe loop of `AllocateResource`;
`fuel` counts the remaining iterations (`(rt.End + 1 - v).toNat` at entry),
so `fuel = 0` is exactly the exit condition `v > rt.End`. -/
def probeFrom (sh : Sh) (rt : ResourceType) : Nat → Int → Option Int
  | 0, _ => none
  | fuel + 1, v =>
    if CheckResource sh rt (toString v) then some v
    else probeFrom sh rt fuel (v + 1)

/-- The typed rendering of the `fmt.Errorf` failures of `AllocateResource`. -/
inductive AllocErr where
  | unknownType (rtype : String)
  | rangeExhausted (rtype : String) (lo hi : Int)
  | valueRequired (rtype : String)
  | unavailable (rtype value : String)
deriving Repr, DecidableEq

/-- The message text of each `fmt.Errorf` in `AllocateResource`. -/
def AllocErr.msg : AllocErr → String
  | .unknownType t => "unknown resource type: " ++ t
  | .rangeExhausted t lo hi =>
      "no available " ++ t ++ " in range " ++ toString lo ++ "-" ++ toString hi
  | .valueRequired t => "resource type " ++ t ++ " requires explicit value"
  | .unavailable t v => t ++ " " ++ v ++ " not available"

/-- `AllocateResource(state, rtype, requestedValue)` (resource.go): counter
types with no requested value probe ascending values from the persisted
cursor (or `Start` when the cursor is 0) and advance the cursor one past the
returned value; otherwise the explicit value is validated with
`CheckResource`; a non-counter request with no value is rejected. -/
def AllocateResource (sh : Sh) (state : State) (rtype requestedValue : String) :
    Except AllocErr (String × State) :=
  match state.Types.lookup rtype with
  | none => .error (.unknownType rtype)
  | some rt =>
    if rt.Counter ∧ requestedValue = "" then
      let current0 := counterOf state.Counters rtype
      let current := if current0 = 0 then rt.Start else current0
      match probeFrom sh rt (rt.End + 1 - current).toNat current with
      | some v =>
          .ok (toString v, { state with Counters := setA rtype (v + 1) state.Counters })
      | none => .error (.rangeExhausted rtype rt.Start rt.End)
    else
      if requestedValue ≠ "" then
        if CheckResource sh rt requestedValue then .ok (requestedValue, state)
        else .error (.unavailable rtype requestedValue)
      else .error (.valueRequired rtype)

/-- `\w` of the Go regexp `%(\w+)` (ASCII word character). -/
def isWordChar (c : Char) : Bool := c.isAlphanum || c == '_'

/-- The maximal `\w+` run at the head of the list (greedy capture group). -/
def takeWord (s : List Char) : List Char := s.takeWhile isWordChar

/-- `re.FindStringSubmatch` for `%(\w+)` (process.go phase 2): the capture of
the leftmost match, scanning for a percent sign followed by at least one word
character. -/
def findCounter : List Char → Option (List Char)
  | [] => none
  | c :: rest =>
    if c == '%' && (match rest with | [] => false | d :: _ => isWordChar d) then
      some (takeWord rest)
    else findCounter rest

/-- Number of percent signs; the bound on iterations of the phase-2 loop
(each iteration removes at least one, see `countP_listReplaceAux_lt` and
`counterLoop_fuel`). -/
def countPercent (s : List Char) : Nat := s.countP (· == '%')

/-- The `%counter` interpolation loop of `StartProcess` phase 2
(process.go): find the leftmost `%name` placeholder, auto-allocate that
counter type, substitute all its occurrences, claim it, repeat; on an
allocation failure release everything owned by `name` and stop. `fuel`
bounds the iterations (`countPercent cmd` at entry suffices, see
`counterLoop_fuel`); on error the released state and the resources
accumulated so far (for the returned Instance record) are reported. -/
def counterLoop (sh : Sh) (name : String) :
    Nat → State → List (String × String) → List Char →
      Except (AllocErr × State × List (String × String)) (State × List (String × String) × List Char)
  | fuel, st, res, cmd =>
    match findCounter cmd with
    | none => .ok (st, res, cmd)
    | some cname =>
      match fuel with
      | 0 => .ok (st, res, cmd)
      | fuel' + 1 =>
        match AllocateResource sh st (String.mk cname) "" with
        | .error e => .error (e, st.ReleaseResources name, res)
        | .ok (value, st1) =>
          counterLoop sh name fuel'
            (st1.ClaimResource (String.mk cname) value name)
            (setA (String.mk cname) value res)
            (listReplace ('%' :: cname) value.data cmd)

/-- The `${var}` interpolation of `StartProcess` phase 2: one
`strings.ReplaceAll` per variable (Go map iteration determinized to the
association-list order). -/
def interpVars (vars : List (String × String)) (cmd : List Char) : List Char :=
  vars.foldl (fun c kv => listReplace ('$' :: '\x7b' :: (kv.1.data ++ ['\x7d'])) kv.2.data c) cmd

/-- `strings.Fields`: split around runs of whitespace, dropping empties. -/
def fieldsSplit (s : List Char) : List String :=
  ((s.splitOnP (·.isWhitespace)).filter (· ≠ [])).map List.asString

/-- Merging `template.Vars` with caller vars, caller values winning. -/
def mergeVars (tv vars : List (String × String)) : List (String × String) :=
  vars.foldl (fun acc kv => setA kv.1 kv.2 acc) tv

/-- The collaborators consumed by `StartProcess`/`RestartProcess`: the check
shell, the spawner (`exec.Command(...).Start()` on the argv, giving a PID or
the OS error message), the clock, and `os.Getwd`. -/
structure StartOS where
  sh : Sh
  spawn : List String → Except String Int
  now : Int
  cwd : Option String

/-- The typed rendering of the failure exits of `StartProcess`. -/
inductive StartErr where
  | instanceExists (name : String)
  | resourceAllocFailed (e : AllocErr)
  | counterAllocFailed (e : AllocErr)
  | emptyCommand
  | spawnFailed
deriving Repr, DecidableEq

/-- Phase 1 of `StartProcess`: allocate each resource type declared by the
template in order; on the first failure release everything owned by `name`
and stop, reporting the resources recorded so far; on success claim the
value and record it into the variable map. -/
def phase1 (sh : Sh) (name : String) :
    List String → State → List (String × String) → List (String × String) →
      Except (AllocErr × State × List (String × String)) (State × List (String × String) × List (String × String))
  | [], st, vars, res => .ok (st, vars, res)
  | rtype :: rest, st, vars, res =>
    match AllocateResource sh st rtype ((vars.lookup rtype).getD "") with
    | .error e => .error (e, st.ReleaseResources name, res)
    | .ok (value, st1) =>
      phase1 sh name rest (st1.ClaimResource rtype value name)
        (setA rtype value vars) (setA rtype value res)

/-- The zero-valued `Instance` being built by `StartProcess`. -/
def newInstance (name template : String) : Instance :=
  { Name := name, Template := template, Command := "", PID := 0,
    Status := "starting", Resources := [], Started := 0, Cwd := "",
    Managed := false, Error := "", LaunchScript := none, ParentChain := [],
    Discovered := false }

/-- `StartProcess(state, template, name, vars)` (process.go, final draft):
reject duplicate names; allocate the template's declared resources (rolling
back on failure); interpolate `${var}` then `%counter` placeholders;
reject an empty command; spawn in a new process group; on success record
pid/status/start time/managed/cwd and store the instance. Returns the
(Go `(*Instance, error)`) pair as `(Option Instance, State, Option StartErr)`.
The detached reaper goroutine is outside this sequential model. -/
def StartProcess (os : StartOS) (st : State) (template : Template)
    (name : String) (vars : List (String × String)) :
    Option Instance × State × Option StartErr :=
  if (st.Instances.lookup name).isSome then
    (none, st, some (.instanceExists name))
  else
    let inst0 := newInstance name template.ID
    let finalVars := mergeVars template.Vars vars
    match phase1 os.sh name template.Resources st finalVars [] with
    | .error (e, st', res) =>
      (some { inst0 with
                Status := "error",
                Error := "resource allocation failed: " ++ e.msg,
                Resources := res },
       st', some (.resourceAllocFailed e))
    | .ok (st1, fv, res1) =>
      let cmd0 := interpVars fv template.Command.data
      match counterLoop os.sh name (countPercent cmd0) st1 res1 cmd0 with
      | .error (e, st', res') =>
        (some { inst0 with
                  Status := "error",
                  Error := "counter allocation failed: " ++ e.msg,
                  Resources := res' },
         st', some (.counterAllocFailed e))
      | .ok (st2, res2, cmdC) =>
        let instC := { inst0 with Resources := res2, Command := List.asString cmdC }
        let parts := fieldsSplit cmdC
        if parts = [] then
          (some { instC with Status := "error", Error := "empty command" },
           st2.ReleaseResources name, some .emptyCommand)
        else
          match os.spawn parts with
          | .error msg =>
            (some { instC with Status := "error", Error := "failed to start: " ++ msg },
             st2.ReleaseResources name, some .spawnFailed)
          | .ok pid =>
            let instR := { instC with
                             PID := pid, Status := "running",
                             Started := os.now, Managed := true,
                             Cwd := (os.cwd.getD instC.Cwd) }
            (some instR,
             ({ st2 with Instances := setA name instR st2.Instances }).Save,
             none)

/-- The signalling / sleeping effects performed by `StopProcess`
(every entry is an attempted syscall or sleep, in program order). -/
inductive SigAction where
  | termGroup (pgid : Int)
  | termProc (pid : Int)
  | killGroup (pgid : Int)
  | waitReap (pid : Int)
  | sleep100
deriving Repr, DecidableEq

/-- The collaborators consumed by `StopProcess`: whether the group SIGTERM
syscall errors, whether `os.FindProcess` errors, and the successive results
of the `IsProcessRunning` probes (indexed by probe number). -/
structure StopOS where
  killGroupTermFails : Bool
  findFails : Bool
  alive : Nat → Bool
deriving Inhabited

/-- The `for i := 0; i < 20; i++` poll loop of `StopProcess`: probe liveness,
break on the first dead probe, sleep 100ms otherwise. Returns the index of
the next unused probe together with the sleeps performed. -/
def stopPoll (alive : Nat → Bool) : Nat → Nat → Nat × List SigAction
  | 0, k => (k, [])
  | i + 1, k =>
    if alive k then
      let r := stopPoll alive i (k + 1)
      (r.1, SigAction.sleep100 :: r.2)
    else (k + 1, [])

/-- `StopProcess(state, inst)` (process.go, final draft): error when
`PID == 0`; otherwise mark `stopping`, SIGTERM the process group (falling
back to an individual SIGTERM, or — when even `os.FindProcess` fails —
returning success immediately), poll liveness for up to 20 × 100ms, SIGKILL
the group if a final probe still reports alive, best-effort reap, and end
with `stopped` / `PID = 0`. Mutation of the shared state is only `Save`,
so the result is the updated instance plus the attempted-action trace. -/
def StopProcess (os : StopOS) (inst : Instance) :
    Except String Instance × List SigAction :=
  if inst.PID = 0 then (.error "instance not running", [])
  else
    let inst1 := { inst with Status := "stopping" }
    let pgid := inst1.PID
    if os.killGroupTermFails ∧ os.findFails then
      (.ok { inst1 with Status := "stopped", PID := 0 },
       [SigAction.termGroup pgid])
    else
      let sigs :=
        if os.killGroupTermFails then
          [SigAction.termGroup pgid, SigAction.termProc inst1.PID]
        else [SigAction.termGroup pgid]
      let poll := stopPoll os.alive 20 0
      let killPart :=
        if os.alive poll.1 then [SigAction.killGroup pgid, SigAction.sleep100]
        else []
      (.ok { inst1 with Status := "stopped", PID := 0 },
       sigs ++ poll.2 ++ killPart ++ [SigAction.waitReap inst1.PID])

/-- The typed rendering of the failure exits of `RestartProcess`. -/
inductive RestartErr where
  | notStopped (name status : String)
  | typeMissing (rtype : String)
  | unavailable (rtype value : String)
  | emptyCommand
  | spawnFailed
deriving Repr, DecidableEq

/-- The re-validation loop of `RestartProcess`: for each previously bound
resource (association-list order determinizes the Go map iteration), fail if
the type no longer exists or the value no longer passes its check, otherwise
re-claim it. The failure exits return without releasing earlier re-claims
(as in the source). -/
def reclaim (sh : Sh) (owner : String) :
    List (String × String) → State → State × Option RestartErr
  | [], st => (st, none)
  | (rtype, value) :: rest, st =>
    match st.Types.lookup rtype with
    | none => (st, some (.typeMissing rtype))
    | some rt =>
      if CheckResource sh rt value then
        reclaim sh owner rest (st.ClaimResource rtype value owner)
      else (st, some (.unavailable rtype value))

/-- `RestartProcess(state, inst)` (process.go, final draft): valid only from
`stopped`; re-validate and re-claim every previously bound resource; then
spawn the stored command verbatim; release on empty-command or spawn
failure. The reaper goroutine is outside this sequential model. -/
def RestartProcess (os : StartOS) (st : State) (inst : Instance) :
    State × Instance × Option RestartErr :=
  if inst.Status ≠ "stopped" then
    (st, inst, some (.notStopped inst.Name inst.Status))
  else
    match reclaim os.sh inst.Name inst.Resources st with
    | (st1, some e) => (st1, inst, some e)
    | (st1, none) =>
      let parts := fieldsSplit inst.Command.data
      if parts = [] then
        (st1.ReleaseResources inst.Name, inst, some .emptyCommand)
      else
        match os.spawn parts with
        | .error msg =>
          ((st1.ReleaseResources inst.Name).Save,
           { inst with Status := "error", Error := "failed to restart: " ++ msg },
           some .spawnFailed)
        | .ok pid =>
          ((st1.Save),
           { inst with
               PID := pid, Status := "running", Started := os.now, Error := "" },
           none)

/-- The collaborators consumed by `MonitorProcess`: the initial
`IsProcessRunning` probe, `ReadProcessInfo`, and the `canManageProcess`
null-signal probe. The polling watcher goroutine is outside this
sequential model. -/
structure MonOS where
  isRunning : Bool
  info : Option ProcessInfo
  canManage : Bool

/-- `MonitorProcess(state, pid, name)` (process.go, final draft): adopt an
existing process as a monitored instance; `Managed` records whether the
null-signal permission probe succeeded; the first listening port is claimed
as its `tcpport` resource. -/
def MonitorProcess (os : MonOS) (st : State) (pid : Int) (name : String)
    (now : Int) : Except String (State × Instance) :=
  if (st.Instances.lookup name).isSome then .error ("instance " ++ name ++ " already exists")
  else if !os.isRunning then .error ("process not running")
  else
    match os.info with
    | none => .error ("cannot read process")
    | some pi =>
      if pi.Cmdline = "" then .error ("cannot read process")
      else
        let resources : List (String × String) :=
          match pi.Ports with
          | [] => []
          | p :: _ => [("tcpport", toString p)]
        let inst : Instance :=
          { Name := name, Template := "", Command := pi.Cmdline, PID := pid,
            Status := "running", Resources := resources, Started := now,
            Cwd := pi.Cwd, Managed := os.canManage, Error := "",
            LaunchScript := none, ParentChain := [], Discovered := false }
        let st1 := resources.foldl
          (fun s kv => s.ClaimResource kv.1 kv.2 name) st
        .ok (({ st1 with Instances := setA name inst st1.Instances }).Save, inst)

/-- The `GetParentChain` loop (discover.go): follow parent-PID links,
stopping at a non-positive PID, an already-visited PID, an unreadable
process, init (PID 1), a parent PID of 0, or a chain longer than 100.
`fuel` bounds the iterations; 101 suffices since every iteration grows the
chain and the loop re-enters only while the chain has at most 100 entries
(see `parentChainAux_fuel`). -/
def parentChainAux (readInfo : Int → Option ProcessInfo) :
    Nat → Int → List Int → List ProcessInfo → List ProcessInfo
  | 0, _, _, chain => chain
  | fuel + 1, cur, seen, chain =>
    if 0 < cur ∧ seen.contains cur = false then
      match readInfo cur with
      | none => chain
      | some info =>
        let chain' := chain ++ [info]
        if cur = 1 ∨ info.PPID = 0 then chain'
        else if 100 < chain'.length then chain'
        else parentChainAux readInfo fuel info.PPID (cur :: seen) chain'
    else chain

/-- `GetParentChain(pid)` (discover.go): the ordered ancestry starting at
`pid` itself (the Go function never returns an error). -/
def GetParentChain (readInfo : Int → Option ProcessInfo) (pid : Int) :
    List ProcessInfo :=
  parentChainAux readInfo 101 pid [] []

/-- `ShellNames` (discover.go). -/
def ShellNames : List String :=
  ["sh", "bash", "zsh", "fish", "dash", "ksh", "tcsh", "csh"]

/-- `IsShell(name)` (discover.go). -/
def IsShell (name : String) : Bool := ShellNames.contains name

/-- `filepath.Base`: empty path gives ".", all-slash path gives "/",
otherwise the last component with trailing slashes removed. -/
def baseName (p : String) : String :=
  if p = "" then "."
  else
    let r := p.data.reverse.dropWhile (· == '/')
    if r = [] then "/"
    else List.asString (r.takeWhile (fun c => !(c == '/'))).reverse

/-- The first scan of `FindLaunchScript` (discover.go): the first chain
element whose immediate parent (the next element) is a shell. -/
def findLS : List ProcessInfo → Option ProcessInfo
  | x :: y :: rest =>
    if IsShell y.Name || IsShell (baseName y.Exe) then some x
    else findLS (y :: rest)
  | _ => none

/-- `FindLaunchScript(chain)` (discover.go): the first child of a shell, or
as a fallback the last chain element that is neither PID 1 nor systemd. -/
def FindLaunchScript (chain : List ProcessInfo) : Option ProcessInfo :=
  match findLS chain with
  | some x => some x
  | none => chain.reverse.find? (fun p => !(p.PID == 1) && !(p.Name == "systemd"))

/-- `DiscoverProcess(pid)` (discover.go): the target's info (chain head)
together with its parent chain (chain tail); errors when the chain is
empty. -/
def DiscoverProcess (readInfo : Int → Option ProcessInfo) (pid : Int) :
    Option (ProcessInfo × List ProcessInfo) :=
  match GetParentChain readInfo pid with
  | [] => none
  | info :: parents => some (info, parents)

/-- The collaborators consumed by the discovery scan: the `/proc` numeric
entries, `ReadProcessInfo`, `IsProcessRunning`, and the clock. -/
structure ScanOS where
  procList : List Int
  readInfo : Int → Option ProcessInfo
  alive : Int → Bool
  now : Int

/-- `DiscoverProcesses(state, portsOnly)` (process.go, final draft): every
`/proc` PID that is not already bound to a known instance and whose info can
be read (and, with `portsOnly`, has a listening port). The result rows carry
the info fields; the matcher only consumes the PID, which is what this
embedding returns. -/
def DiscoverProcesses (os : ScanOS) (st : State) (portsOnly : Bool) : List Int :=
  os.procList.filter (fun pid =>
    !(st.Instances.any (fun kv => kv.2.PID == pid)) &&
    (match os.readInfo pid with
     | none => false
     | some pi => !portsOnly || !pi.Ports.isEmpty))

/-- The per-process resource map built by `MatchAndUpdateInstances`: only the
first listening port, recorded as `tcpport`. -/
def procResourcesOf (pi : ProcessInfo) : List (String × String) :=
  match pi.Ports with
  | [] => []
  | p :: _ => [("tcpport", toString p)]

/-- The resource-overlap test of `MatchAndUpdateInstances`: both sides
nonempty and some bound resource of the instance equals the process's entry
for that type (a missing key reads as ""). -/
def resourcesMatchB (instRes procRes : List (String × String)) : Bool :=
  !instRes.isEmpty && !procRes.isEmpty &&
    instRes.any (fun kv => ((procRes.lookup kv.1).getD "") == kv.2)

/-- Substring search on character lists: does `sub` occur inside `s`? -/
def containsList (s sub : List Char) : Bool :=
  match s with
  | [] => sub.isEmpty
  | _ :: t => sub.isPrefixOf s || containsList t sub

/-- `strings.Contains(s, sub)`. -/
def containsStr (s sub : String) : Bool := containsList s.data sub.data

/-- The command-overlap test of `MatchAndUpdateInstances`: the stored command
is a substring of, or contains, the candidate's command line or any
ancestor's command line. -/
def commandMatchesB (instCmd : String) (cmds : List String) : Bool :=
  cmds.any (fun c => containsStr c instCmd || containsStr instCmd c)

/-- The inner instance loop of `MatchAndUpdateInstances` for one discovered
PID: skip instances that are running and alive; require resource overlap,
readable discovery info and command overlap; on the first match update the
instance (PID, status, start time, parent chain, launch script) and stop.
`disc` is the (pid-determined) result of the `DiscoverProcess(pid)` call the
source makes inside the loop. Returns the updated instance list and the
matched instance name, if any. -/
def matchInner (alive : Int → Bool) (pid : Int)
    (procRes : List (String × String))
    (disc : Option (ProcessInfo × List ProcessInfo)) (now : Int) :
    List (String × Instance) → List (String × Instance) × Option String
  | [] => ([], none)
  | (n, i) :: rest =>
    if i.Status == "running" && alive i.PID then
      let r := matchInner alive pid procRes disc now rest
      ((n, i) :: r.1, r.2)
    else if resourcesMatchB i.Resources procRes then
      match disc with
      | none =>
        let r := matchInner alive pid procRes disc now rest
        ((n, i) :: r.1, r.2)
      | some (fi, parents) =>
        if commandMatchesB i.Command (fi.Cmdline :: parents.map ProcessInfo.Cmdline) then
          ((n, { i with
                   PID := pid, Status := "running", Started := now,
                   ParentChain := parents,
                   LaunchScript := FindLaunchScript (fi :: parents) }) :: rest,
           some n)
        else
          let r := matchInner alive pid procRes disc now rest
          ((n, i) :: r.1, r.2)
    else
      let r := matchInner alive pid procRes disc now rest
      ((n, i) :: r.1, r.2)

/-- The outer process loop of `MatchAndUpdateInstances`, also logging each
re-binding performed as a (name, pid) pair (for the statements below). -/
def matchLoop (os : ScanOS) :
    List Int → State → List (String × Int) → State × List (String × Int)
  | [], st, log => (st, log)
  | pid :: rest, st, log =>
    match os.readInfo pid with
    | none => matchLoop os rest st log
    | some pinfo =>
      let disc := DiscoverProcess os.readInfo pid
      let r := matchInner os.alive pid (procResourcesOf pinfo) disc os.now st.Instances
      match r.2 with
      | some n => matchLoop os rest ({ st with Instances := r.1 }).Save (log ++ [(n, pid)])
      | none => matchLoop os rest { st with Instances := r.1 } log

/-- `MatchAndUpdateInstances(state)` (process.go, final draft): one
reconciliation pass — scan, then try to re-bind instances to discovered
processes; returns the new state and the (name, pid) bindings performed. -/
def MatchAndUpdateInstances (os : ScanOS) (st : State) :
    State × List (String × Int) :=
  matchLoop os (DiscoverProcesses os st false) st []

/-! ### Concrete fixtures used by the counterexamples and witnesses below -/

/-- A shell in which every check command exits 0. -/
def shAllPass : Sh := fun _ => some 0

/-- A shell in which every check command exits 1. -/
def shAllFail : Sh := fun _ => some 1

/-- The empty aggregate. -/
def emptyState : State :=
  { Instances := [], Templates := [], Resources := [], Counters := [], Types := [] }

/-- A checkless informational type (the built-in `workdir`). -/
def workdirType : ResourceType :=
  { Name := "workdir", Check := "", Counter := false, Start := 0, End := 0 }

/-- A state in which `("workdir", "/x")` is already claimed by instance `a`. -/
def c1State : State :=
  { emptyState with
      Types := [("workdir", workdirType)],
      Resources := [(("workdir", "/x"), ⟨"workdir", "/x", "a"⟩)] }

/-- The built-in `tcpport` counter type restricted to the spec scenario's
range 3000–3002. -/
def tcpportRange : ResourceType :=
  { Name := "tcpport", Check := "nc -z localhost $\x7bvalue\x7d && exit 1 || exit 0",
    Counter := true, Start := 3000, End := 3002 }

/-- The scenario state: only the `tcpport` type, no counters yet. -/
def c6State : State := { emptyState with Types := [("tcpport", tcpportRange)] }

/-- A checkless counter type whose range contains the value -1. -/
def negCounterType : ResourceType :=
  { Name := "g", Check := "", Counter := true, Start := -1, End := 0 }

/-- A state holding only the negative-range counter type. -/
def c6NegState : State := { emptyState with Types := [("g", negCounterType)] }

/-- A type whose check always passes (empty check command). -/
def c2TypeA : ResourceType :=
  { Name := "a", Check := "", Counter := false, Start := 0, End := 0 }

/-- A type with a real check command (failed by `shAllFail`). -/
def c2TypeB : ResourceType :=
  { Name := "b", Check := "exit 1", Counter := false, Start := 0, End := 0 }

/-- A state with the two types above and nothing claimed. -/
def c2State : State :=
  { emptyState with Types := [("a", c2TypeA), ("b", c2TypeB)] }

/-- A stopped instance that previously held `a=1` and `b=2`. -/
def c2Inst : Instance :=
  { newInstance "i" "t" with
      Status := "stopped", Resources := [("a", "1"), ("b", "2")], Command := "x" }

/-- Collaborators for the restart counterexample: every check fails. -/
def c2OS : StartOS :=
  { sh := shAllFail, spawn := fun _ => .ok 7, now := 0, cwd := none }

/-- A template with no declared resources and command `x`. -/
def c5Template : Template :=
  { ID := "t", Label := "", Command := "x", Resources := [], Vars := [] }

/-- Collaborators in which the spawn fails with OS message `boom`. -/
def c5OS : StartOS :=
  { sh := shAllPass, spawn := fun _ => .error "boom", now := 0, cwd := none }

/-- Stop collaborators: group signal succeeds, the process dies at once. -/
def stopOSDead : StopOS :=
  { killGroupTermFails := false, findFails := false, alive := fun _ => false }

/-- An already-stopped instance (`PID = 0`). -/
def c3Inst : Instance := { newInstance "x" "t" with Status := "stopped", PID := 0 }

/-- Introspection result for the unmanaged process adopted in the C4 input. -/
def c4Info : ProcessInfo :=
  { PID := 5, PPID := 1, Name := "srv", Cmdline := "srv --serve", Exe := "/bin/srv",
    Cwd := "/", Environ := [], Ports := [80] }

/-- Monitor collaborators: the process is alive and readable but the
null-signal permission probe fails (another user's process). -/
def c4MonOS : MonOS := { isRunning := true, info := some c4Info, canManage := false }

/-- Introspection result for the discovered process of the C9 witness. -/
def c9Info : ProcessInfo :=
  { PID := 9, PPID := 0, Name := "srv", Cmdline := "srv --x", Exe := "", Cwd := "",
    Environ := [], Ports := [7] }

/-- Scan collaborators of the C9 witness: a single discovered PID 9. -/
def c9OS : ScanOS :=
  { procList := [9], readInfo := fun p => if p == 9 then some c9Info else none,
    alive := fun _ => false, now := 5 }

/-- A stopped instance that previously held port 7 with command `srv`. -/
def c9Inst : Instance :=
  { newInstance "i" "t" with
      Status := "stopped", Resources := [("tcpport", "7")], Command := "srv" }

/-- The C9 witness state: just that stopped instance. -/
def c9State : State := { emptyState with Instances := [("i", c9Inst)] }

/-- The effective starting cursor of a counter allocation: the persisted
cursor, or `Start` when the cursor is 0 (the unset sentinel). -/
def allocCursor (s : State) (t : String) (rt : ResourceType) : Int :=
  if counterOf s.Counters t = 0 then rt.Start else counterOf s.Counters t

/-- The aspects of an instance-table entry untouched by a reconciliation
re-binding: its key, its bound resources and its stored command. -/
def instShape (x y : String × Instance) : Prop :=
  x.1 = y.1 ∧ x.2.Resources = y.2.Resources ∧ x.2.Command = y.2.Command

/-- The two re-binding conditions of `MatchAndUpdateInstances` for a
discovered PID `p` against an instance with resources `res` and command
`cmd`: resource overlap and command-substring overlap. -/
def bindCond (os : ScanOS) (p : Int) (res : List (String × String)) (cmd : String) : Prop :=
  ∃ pinfo, os.readInfo p = some pinfo ∧
    resourcesMatchB res (procResourcesOf pinfo) = true ∧
    ∃ fi parents, DiscoverProcess os.readInfo p = some (fi, parents) ∧
      commandMatchesB cmd (fi.Cmdline :: parents.map ProcessInfo.Cmdline) = true

/-- The state after the failing restart of the C2 counterexample: the step-1
re-claim of `a=1` is still present. -/
def c2StateAfter : State :=
  { c2State with Resources := [(("a", "1"), ⟨"a", "1", "i"⟩)] }

/-- The unmanaged instance created by `MonitorProcess` in the C4 input. -/
def c4Inst : Instance :=
  { Name := "m", Template := "", Command := "srv --serve", PID := 5,
    Status := "running", Resources := [("tcpport", "80")], Started := 0,
    Cwd := "/", Managed := false, Error := "", LaunchScript := none,
    ParentChain := [], Discovered := false }

/-- The state after adopting that process. -/
def c4StateAfter : State :=
  { emptyState with
      Instances := [("m", c4Inst)],
      Resources := [(("tcpport", "80"), ⟨"tcpport", "80", "m"⟩)] }

/-- The error-status instance returned by the failing start of the C5
counterexample. -/
def c5Inst : Instance :=
  { Name := "n", Template := "t", Command := "x", PID := 0, Status := "error",
    Resources := [], Started := 0, Cwd := "", Managed := false,
    Error := "failed to start: boom", LaunchScript := none, ParentChain := [],
    Discovered := false }

/-- Scenario states after one, two and three counter allocations. -/
def c6s1 : State := { c6State with Counters := [("tcpport", 3001)] }

/-- See `c6s1`. -/
def c6s2 : State := { c6State with Counters := [("tcpport", 3002)] }

/-- See `c6s1`. -/
def c6s3 : State := { c6State with Counters := [("tcpport", 3003)] }

/-- The negative-range counter state after one allocation: the cursor has
landed on the unset sentinel 0. -/
def c6NegAfter : State := { c6NegState with Counters := [("g", 0)] }

/-- A running instance with a live PID (for the C7 witness). -/
def c7Inst : Instance :=
  { newInstance "r" "t" with Status := "running", PID := 42 }

/-- The C9 instance after being re-bound to discovered PID 9. -/
def c9InstBound : Instance :=
  { c9Inst with
      PID := 9, Status := "running", Started := 5,
      ParentChain := [], LaunchScript := some c9Info }

/-- The state produced by the C9 witness reconciliation pass. -/
def c9StateAfter : State :=
  { c9State with Instances := [("i", c9InstBound)] }

/-- A state where `b=2` is claimed and (under `shAllFail`) every claimed
value of type `b` fails its check (for the C1 witness). -/
def c1WState : State :=
  { emptyState with
      Types := [("b", c2TypeB)],
      Resources := [(("b", "2"), ⟨"b", "2", "a"⟩)] }

/-! ### General lemmas about the embedding -/

theorem ReleaseResources_clean (s : State) (owner : String) :
    ∀ kv ∈ (s.ReleaseResources owner).Resources, kv.2.Owner ≠ owner := by
  intro kv hkv
  simp only [State.ReleaseResources, List.mem_filter] at hkv
  simpa using hkv.2

theorem setA_keys_sub [DecidableEq κ] (k : κ) (v : α) :
    ∀ l : List (κ × α), ∀ x ∈ (setA k v l).map Prod.fst,
      x = k ∨ x ∈ l.map Prod.fst := by
  intro l
  induction l with
  | nil => intro x hx; simp [setA] at hx; simp [hx]
  | cons hd tl ih =>
    obtain ⟨k', v'⟩ := hd
    intro x hx
    rw [setA] at hx
    split at hx
    · rcases (by simpa using hx) with h | h
      · exact Or.inl h
      · exact Or.inr (by simp [h])
    · rcases (by simpa using hx) with h | h
      · exact Or.inr (by simp [h])
      · rcases ih x (by simpa using h) with h' | h'
        · exact Or.inl h'
        · exact Or.inr (by simp [h'])

theorem setA_keys_nodup [DecidableEq κ] (k : κ) (v : α) :
    ∀ l : List (κ × α), (l.map Prod.fst).Nodup →
      ((setA k v l).map Prod.fst).Nodup := by
  intro l
  induction l with
  | nil => intro _; simp [setA]
  | cons hd tl ih =>
    obtain ⟨k', v'⟩ := hd
    intro hnd
    rw [List.map_cons, List.nodup_cons] at hnd
    obtain ⟨hhd, htl⟩ := hnd
    rw [setA]
    split
    next heq =>
      subst heq
      rw [List.map_cons, List.nodup_cons]
      exact ⟨hhd, htl⟩
    next hne =>
      rw [List.map_cons, List.nodup_cons]
      refine ⟨?_, ih htl⟩
      intro hmem
      rcases setA_keys_sub k v tl k' hmem with h | h
      · exact hne h.symm
      · exact hhd h

theorem probeFrom_ok (sh : Sh) (rt : ResourceType) :
    ∀ fuel (v n : Int), probeFrom sh rt fuel v = some n →
      v ≤ n ∧ n < v + fuel ∧ CheckResource sh rt (toString n) = true ∧
        ∀ w, v ≤ w → w < n → CheckResource sh rt (toString w) = false := by
  intro fuel
  induction fuel with
  | zero => intro v n h; simp [probeFrom] at h
  | succ k ih =>
    intro v n h
    rw [probeFrom] at h
    split at h
    next hchk =>
      obtain rfl : v = n := by simpa using h
      refine ⟨le_refl _, by omega, hchk, ?_⟩
      intro w hw hw'; omega
    next hchk =>
      obtain ⟨h1, h2, h3, h4⟩ := ih (v + 1) n h
      refine ⟨by omega, by push_cast at h2 ⊢; omega, h3, ?_⟩
      intro w hw hw'
      rcases eq_or_lt_of_le hw with rfl | hlt
      · simpa using hchk
      · exact h4 w (by omega) hw'

theorem probeFrom_none (sh : Sh) (rt : ResourceType) :
    ∀ fuel (v : Int), probeFrom sh rt fuel v = none ↔
      ∀ w, v ≤ w → w < v + fuel → CheckResource sh rt (toString w) = false := by
  intro fuel
  induction fuel with
  | zero =>
    intro v
    constructor
    · intro _ w hw hw'
      exfalso
      push_cast at hw'
      omega
    · intro _; rfl
  | succ k ih =>
    intro v
    rw [probeFrom]
    split
    next hchk =>
      constructor
      · intro h; exact absurd h (by simp)
      · intro h
        have hv := h v (le_refl _) (by push_cast; omega)
        rw [hchk] at hv
        exact absurd hv (by decide)
    next hchk =>
      rw [ih (v + 1)]
      constructor
      · intro h w hw hw'
        rcases eq_or_lt_of_le hw with rfl | hlt
        · simpa using hchk
        · exact h w (by omega) (by push_cast at hw' ⊢; omega)
      · intro h w hw hw'
        exact h w (by omega) (by push_cast at hw' ⊢; omega)

theorem AllocateResource_ok_check (sh : Sh) (s : State) (t req : String)
    (rt : ResourceType) (hty : s.Types.lookup t = some rt)
    {v : String} {s' : State}
    (h : AllocateResource sh s t req = .ok (v, s')) :
    CheckResource sh rt v = true := by
  simp only [AllocateResource, hty] at h
  split at h
  · split at h
    next n hp =>
      obtain ⟨rfl, -⟩ : toString n = v ∧ _ :=
        by simpa using h
      exact (probeFrom_ok sh rt _ _ _ hp).2.2.1
    next hp => simp at h
  · split at h
    · split at h
      next hc =>
        obtain ⟨rfl, -⟩ : req = v ∧ s = s' := by simpa using h
        exact hc
      next hc => simp at h
    · simp at h

theorem AllocateResource_ok_frame (sh : Sh) (s : State) (t req : String)
    {v : String} {s' : State}
    (h : AllocateResource sh s t req = .ok (v, s')) :
    s'.Instances = s.Instances ∧ s'.Templates = s.Templates ∧
      s'.Resources = s.Resources ∧ s'.Types = s.Types := by
  cases hty : s.Types.lookup t with
  | none => rw [AllocateResource, hty] at h; simp at h
  | some rt =>
    simp only [AllocateResource, hty] at h
    split at h
    · split at h
      next n hp =>
        obtain ⟨-, rfl⟩ : toString n = v ∧ _ = s' := by simpa using h
        exact ⟨rfl, rfl, rfl, rfl⟩
      next hp => simp at h
    · split at h
      · split at h
        next hc =>
          obtain ⟨-, rfl⟩ : req = v ∧ s = s' := by simpa using h
          exact ⟨rfl, rfl, rfl, rfl⟩
        next hc => simp at h
      · simp at h

/-! ### The claims -/

/-- C8: `CheckResource` returns available when the type's check command is
empty; otherwise it substitutes the value into the check-command template,
executes it through a shell, and is available exactly when the exit outcome
is 0 — a nonzero exit or an execution error (`none`) is unavailable. -/
theorem c8_check_resource_semantics (sh : Sh) (rt : ResourceType) (value : String) :
    CheckResource sh rt value = true ↔
      (rt.Check = "" ∨ sh (strReplaceAll rt.Check "$\x7bvalue\x7d" value) = some 0) := by
  unfold CheckResource
  split
  next h => simp [h]
  next h => simp [h]

/-- C1 (amended): the claims table, keyed by the (type, value) pair, holds at
most one live record per pair (`ClaimResource` preserves key uniqueness);
however `AllocateResource` validates only through the check command and
never consults the claims table, so it avoids values claimed by live records
of the same type only under the hypothesis that every such claimed value
fails its check. -/
theorem c1_allocation_conflict_freedom (sh : Sh) (s : State) (rtype req : String)
    (rt : ResourceType)
    (hnd : (s.Resources.map Prod.fst).Nodup)
    (hty : s.Types.lookup rtype = some rt)
    (hchk : ∀ kv ∈ s.Resources, kv.2.Ty = rtype → CheckResource sh rt kv.2.Value = false) :
    (∀ value owner, (((s.ClaimResource rtype value owner).Resources).map Prod.fst).Nodup) ∧
    (∀ v s', AllocateResource sh s rtype req = .ok (v, s') →
      ∀ kv ∈ s.Resources, kv.2.Ty = rtype → kv.2.Value ≠ v) := by
  constructor
  · intro value owner
    exact setA_keys_nodup _ _ _ hnd
  · intro v s' h kv hkv hty' heq
    have hc := AllocateResource_ok_check sh s rtype req rt hty h
    have hf := hchk kv hkv hty'
    rw [heq] at hf
    rw [hf] at hc
    exact absurd hc (by decide)

/-- C1 counterexample: with the checkless `workdir` type, allocating the
explicit value `/x` succeeds even though a live Resource record
`(workdir, /x)` owned by instance `a` already exists — the allocator never
consults the claims table. -/
theorem c1_counterexample :
    AllocateResource shAllPass c1State "workdir" "/x" = .ok ("/x", c1State) ∧
    ((("workdir", "/x"), Resource.mk "workdir" "/x" "a") ∈ c1State.Resources) := by
  decide

/-- C1 witness: the amended theorem applied at a concrete state whose one
claimed `b` value fails its check under `shAllFail`. -/
theorem c1_witness :
    (c1WState.Resources.map Prod.fst).Nodup ∧
    c1WState.Types.lookup "b" = some c2TypeB ∧
    ((∀ value owner, (((c1WState.ClaimResource "b" value owner).Resources).map Prod.fst).Nodup) ∧
     (∀ v s', AllocateResource shAllFail c1WState "b" "9" = .ok (v, s') →
       ∀ kv ∈ c1WState.Resources, kv.2.Ty = "b" → kv.2.Value ≠ v)) :=
  ⟨by decide, by decide,
   c1_allocation_conflict_freedom shAllFail c1WState "b" "9" c2TypeB
     (by decide) (by decide) (by decide)⟩

theorem stopPoll_sleeps (alive : Nat → Bool) :
    ∀ i k, (∀ a ∈ (stopPoll alive i k).2, a = SigAction.sleep100) ∧
      (stopPoll alive i k).2.length ≤ i := by
  intro i
  induction i with
  | zero => intro k; simp [stopPoll]
  | succ n ih =>
    intro k
    rw [stopPoll]
    split
    · obtain ⟨h1, h2⟩ := ih (k + 1)
      constructor
      · intro a ha
        rcases (by simpa using ha : a = SigAction.sleep100 ∨ a ∈ (stopPoll alive n (k + 1)).2) with rfl | ha'
        · rfl
        · exact h1 a ha'
      · simpa using Nat.succ_le_succ h2
    · simp

/-- C3 (amended): `Stop` on an instance with `pid == 0` is not a no-op
success but the error `instance not running`; since every successful `Stop`
ends with status `stopped` and `pid = 0`, the second of two consecutive
`Stop` calls always returns that error. -/
theorem c3_stop_not_idempotent (os os' : StopOS) (inst inst' : Instance)
    (tr : List SigAction)
    (h : StopProcess os inst = (.ok inst', tr)) :
    inst'.Status = "stopped" ∧ inst'.PID = 0 ∧
      (StopProcess os' inst').1 = .error "instance not running" := by
  simp only [StopProcess] at h
  split at h
  next hpid => simp at h
  next hpid =>
    split at h
    · simp only [Prod.mk.injEq, Except.ok.injEq] at h
      obtain ⟨rfl, -⟩ := h
      exact ⟨rfl, rfl, by simp [StopProcess]⟩
    · simp only [Prod.mk.injEq, Except.ok.injEq] at h
      obtain ⟨rfl, -⟩ := h
      exact ⟨rfl, rfl, by simp [StopProcess]⟩

/-- C3 counterexample: on an already-stopped instance (`PID = 0`), `Stop`
returns the error `instance not running` — not a no-op success as claimed. -/
theorem c3_counterexample :
    c3Inst.PID = 0 ∧
      StopProcess stopOSDead c3Inst = (.error "instance not running", []) := by
  decide

/-- C3 witness: a concrete successful stop of a running instance, after
which the second stop errors. -/
theorem c3_witness :
    StopProcess stopOSDead c7Inst =
      (.ok { c7Inst with Status := "stopped", PID := 0 },
       [SigAction.termGroup 42, SigAction.waitReap 42]) ∧
    ({ c7Inst with Status := "stopped", PID := 0 }.Status = "stopped" ∧
     { c7Inst with Status := "stopped", PID := 0 }.PID = 0 ∧
     (StopProcess stopOSDead { c7Inst with Status := "stopped", PID := 0 }).1 =
       .error "instance not running") :=
  ⟨by decide,
   c3_stop_not_idempotent stopOSDead stopOSDead c7Inst
     { c7Inst with Status := "stopped", PID := 0 }
     [SigAction.termGroup 42, SigAction.waitReap 42] (by decide)⟩

/-- C4 (code bug): the `Managed` field is documented in the source as
`true=can stop/restart, false=monitor only`, and `MonitorProcess` creates
`Managed = false` instances for processes whose permission probe fails; yet
`StopProcess` never consults the flag — stopping the adopted unmanaged
instance attempts a group SIGTERM on its process group. -/
theorem c4_unmanaged_still_signaled :
    MonitorProcess c4MonOS emptyState 5 "m" 0 = .ok (c4StateAfter, c4Inst) ∧
    c4Inst.Managed = false ∧
    SigAction.termGroup 5 ∈ (StopProcess stopOSDead c4Inst).2 := by
  decide

/-- C7: stopping an instance with a live PID (when the group signal syscall
succeeds) first attempts a graceful SIGTERM on the whole process group, then
polls liveness at most 20 times at 100ms (the bounded 2-second window,
at most 21 sleeps in the whole trace counting the post-kill settling sleep),
sends the group SIGKILL exactly when the probe after that window still
reports the process alive, and ends with status `stopped` and `pid = 0`. -/
theorem c7_stop_graceful_escalation (os : StopOS) (inst : Instance)
    (hpid : inst.PID ≠ 0) (hterm : os.killGroupTermFails = false) :
    ∃ inst' tr, StopProcess os inst = (.ok inst', tr) ∧
      inst'.Status = "stopped" ∧ inst'.PID = 0 ∧
      tr.head? = some (SigAction.termGroup inst.PID) ∧
      tr.countP (· == SigAction.sleep100) ≤ 21 ∧
      (SigAction.killGroup inst.PID ∈ tr ↔ os.alive (stopPoll os.alive 20 0).1 = true) := by
  obtain ⟨hall, hlen⟩ := stopPoll_sleeps os.alive 20 0
  have hcnt : ((stopPoll os.alive 20 0).2).countP (· == SigAction.sleep100) ≤ 20 :=
    le_trans (List.countP_le_length _) hlen
  by_cases halive : os.alive (stopPoll os.alive 20 0).1 = true
  · have heq : StopProcess os inst =
        (.ok { inst with Status := "stopped", PID := 0 },
         SigAction.termGroup inst.PID ::
           ((stopPoll os.alive 20 0).2 ++
            [SigAction.killGroup inst.PID, SigAction.sleep100,
             SigAction.waitReap inst.PID])) := by
      simp only [StopProcess, if_neg hpid, hterm]
      simp [halive]
    refine ⟨_, _, heq, rfl, rfl, rfl, ?_, ?_⟩
    · simp [List.countP_cons, List.countP_append]; omega
    · exact iff_of_true (by simp) halive
  · have heq : StopProcess os inst =
        (.ok { inst with Status := "stopped", PID := 0 },
         SigAction.termGroup inst.PID ::
           ((stopPoll os.alive 20 0).2 ++ [SigAction.waitReap inst.PID])) := by
      simp only [StopProcess, if_neg hpid, hterm]
      simp [halive]
    refine ⟨_, _, heq, rfl, rfl, rfl, ?_, ?_⟩
    · simp [List.countP_cons, List.countP_append]; omega
    · have hf : os.alive (stopPoll os.alive 20 0).1 = false := by
        cases hv : os.alive (stopPoll os.alive 20 0).1
        · rfl
        · exact absurd hv halive
      refine iff_of_false ?_ (by simp [hf])
      intro hmem
      simp only [List.mem_cons, List.mem_append, List.mem_singleton] at hmem
      rcases hmem with h | h | h
      · exact absurd h (by simp)
      · have := hall _ h
        simp at this
      · exact absurd h (by simp)

/-- C7 witness: the theorem applied to a running instance with PID 42 whose
process dies immediately after the group SIGTERM. -/
theorem c7_witness :
    (c7Inst.PID ≠ 0 ∧ stopOSDead.killGroupTermFails = false) ∧
    (∃ inst' tr, StopProcess stopOSDead c7Inst = (.ok inst', tr) ∧
      inst'.Status = "stopped" ∧ inst'.PID = 0 ∧
      tr.head? = some (SigAction.termGroup c7Inst.PID) ∧
      tr.countP (· == SigAction.sleep100) ≤ 21 ∧
      (SigAction.killGroup c7Inst.PID ∈ tr ↔
        stopOSDead.alive (stopPoll stopOSDead.alive 20 0).1 = true)) :=
  ⟨⟨by decide, by decide⟩,
   c7_stop_graceful_escalation stopOSDead c7Inst (by decide) (by decide)⟩

theorem parentChainAux_length (ri : Int → Option ProcessInfo) :
    ∀ fuel (cur : Int) (seen : List Int) (chain : List ProcessInfo),
      chain.length ≤ 100 →
      (parentChainAux ri fuel cur seen chain).length ≤ 101 := by
  intro fuel
  induction fuel with
  | zero =>
    intro cur seen chain h
    rw [parentChainAux]
    omega
  | succ n ih =>
    intro cur seen chain h
    rw [parentChainAux]
    split
    · cases hri : ri cur with
      | none => simpa using by omega
      | some info =>
        simp only [hri]
        split
        · simp only [List.length_append, List.length_singleton]
          omega
        · split
          · simp only [List.length_append, List.length_singleton]
            omega
          next hlen =>
            apply ih
            simp only [List.length_append, List.length_singleton] at hlen ⊢
            omega
    · omega

theorem parentChainAux_fuel (ri : Int → Option ProcessInfo) :
    ∀ f g (cur : Int) (seen : List Int) (chain : List ProcessInfo),
      chain.length ≤ 100 → 101 ≤ chain.length + f → 101 ≤ chain.length + g →
      parentChainAux ri f cur seen chain = parentChainAux ri g cur seen chain := by
  intro f
  induction f with
  | zero =>
    intro g cur seen chain h1 h2 h3
    omega
  | succ n ih =>
    intro g cur seen chain h1 h2 h3
    cases g with
    | zero => omega
    | succ m =>
      rw [parentChainAux, parentChainAux]
      split
      · cases hri : ri cur with
        | none => simp only [hri]
        | some info =>
          simp only [hri]
          split
          · rfl
          · split
            · rfl
            next hlen =>
              apply ih
              · simp only [List.length_append, List.length_singleton] at hlen ⊢
                omega
              · simp only [List.length_append, List.length_singleton]
                omega
              · simp only [List.length_append, List.length_singleton]
                omega
      · rfl

/-- C10: for every starting PID and every parent-PID structure (including
cyclic or corrupted process tables, i.e. arbitrary `readInfo` oracles), the
parent-chain walk is a total function — it stops at the root, a parent of
zero, an already-visited PID, or the 100-hop depth ceiling — and the
returned chain never exceeds 101 entries (the walked process itself plus at
most 100 hops). -/
theorem c10_parent_chain_bounded (ri : Int → Option ProcessInfo) (pid : Int) :
    (GetParentChain ri pid).length ≤ 101 :=
  parentChainAux_length ri 101 pid [] [] (by simp)

theorem phase1_error_release (sh : Sh) (name : String) :
    ∀ (rs : List String) (st : State) (vars res : List (String × String))
      (e : AllocErr) (st' : State) (res' : List (String × String)),
      phase1 sh name rs st vars res = .error (e, st', res') →
      ∃ s₀, st' = State.ReleaseResources s₀ name := by
  intro rs
  induction rs with
  | nil =>
    intro st vars res e st' res' h
    simp [phase1] at h
  | cons rtype rest ih =>
    intro st vars res e st' res' h
    rw [phase1] at h
    split at h
    next ha =>
      obtain ⟨-, rfl, -⟩ : _ = e ∧ State.ReleaseResources st name = st' ∧ res = res' := by
        simpa using h
      exact ⟨st, rfl⟩
    next v st1 ha =>
      exact ih _ _ _ _ _ _ h

theorem phase1_ok_frame (sh : Sh) (name : String) :
    ∀ (rs : List String) (st : State) (vars res : List (String × String))
      (st1 : State) (vars' res' : List (String × String)),
      phase1 sh name rs st vars res = .ok (st1, vars', res') →
      st1.Instances = st.Instances := by
  intro rs
  induction rs with
  | nil =>
    intro st vars res st1 vars' res' h
    obtain ⟨rfl, -⟩ : st = st1 ∧ _ := by simpa [phase1] using h
    rfl
  | cons rtype rest ih =>
    intro st vars res st1 vars' res' h
    rw [phase1] at h
    split at h
    next ha => simp at h
    next v stm ha =>
      have := ih _ _ _ _ _ _ h
      rw [this]
      have hfr := AllocateResource_ok_frame sh st rtype ((vars.lookup rtype).getD "") ha
      simpa [State.ClaimResource] using hfr.1

theorem counterLoop_error_release (sh : Sh) (name : String) :
    ∀ fuel (st : State) (res : List (String × String)) (cmd : List Char)
      (e : AllocErr) (st' : State) (res' : List (String × String)),
      counterLoop sh name fuel st res cmd = .error (e, st', res') →
      ∃ s₀, st' = State.ReleaseResources s₀ name := by
  intro fuel
  induction fuel with
  | zero =>
    intro st res cmd e st' res' h
    rw [counterLoop] at h
    split at h
    · simp at h
    · split at h
      · simp at h
      · omega
  | succ n ih =>
    intro st res cmd e st' res' h
    rw [counterLoop] at h
    split at h
    · simp at h
    · split at h
      next hfz => simp at h
      next fuel' hfs =>
        obtain rfl : fuel' = n := by omega
        split at h
        next ha =>
          obtain ⟨-, rfl, -⟩ : _ = e ∧ State.ReleaseResources st name = st' ∧ res = res' := by
            simpa using h
          exact ⟨st, rfl⟩
        next v st1 ha =>
          exact ih _ _ _ _ _ _ h

theorem counterLoop_ok_frame (sh : Sh) (name : String) :
    ∀ fuel (st : State) (res : List (String × String)) (cmd : List Char)
      (st2 : State) (res2 : List (String × String)) (cmd2 : List Char),
      counterLoop sh name fuel st res cmd = .ok (st2, res2, cmd2) →
      st2.Instances = st.Instances := by
  intro fuel
  induction fuel with
  | zero =>
    intro st res cmd st2 res2 cmd2 h
    rw [counterLoop] at h
    split at h
    · obtain ⟨rfl, -⟩ : st = st2 ∧ _ := by simpa using h
      rfl
    · split at h
      · obtain ⟨rfl, -⟩ : st = st2 ∧ _ := by simpa using h
        rfl
      · omega
  | succ n ih =>
    intro st res cmd st2 res2 cmd2 h
    rw [counterLoop] at h
    split at h
    · obtain ⟨rfl, -⟩ : st = st2 ∧ _ := by simpa using h
      rfl
    · split at h
      next hfz =>
        obtain ⟨rfl, -⟩ : st = st2 ∧ _ := by simpa using h
        rfl
      next fuel' hfs =>
        obtain rfl : fuel' = n := by omega
        split at h
        next ha => simp at h
        next v st1 ha =>
          have := ih _ _ _ _ _ _ h
          rw [this]
          have hfr := AllocateResource_ok_frame sh st _ "" ha
          simpa [State.ClaimResource] using hfr.1

/-- C5 (amended): when the spawn fails, all resources claimed for the
attempt are rolled back and the Instance record — in `error` status with the
OS error message attached — is returned to the caller; but it is not kept in
the instance table: `state.Instances` is unchanged (only successful starts
are stored), so the record is observable only in the call's return value. -/
theorem c5_spawn_failure_record (os : StartOS) (st : State)
    (template : Template) (name : String) (vars : List (String × String))
    (i : Instance) (st' : State)
    (h : StartProcess os st template name vars = (some i, st', some .spawnFailed)) :
    i.Status = "error" ∧ (∃ m, i.Error = "failed to start: " ++ m) ∧
    (∀ kv ∈ st'.Resources, kv.2.Owner ≠ name) ∧
    st'.Instances = st.Instances := by
  simp only [StartProcess] at h
  split at h
  · simp at h
  next hexists =>
    split at h
    next e st'' res hph => simp at h
    next st1 fv res1 hph =>
      split at h
      next e st'' res' hcl => simp at h
      next st2 res2 cmdC hcl =>
        split at h
        next hparts => simp at h
        next hparts =>
          split at h
          next msg hsp =>
            simp only [Prod.mk.injEq, Option.some.injEq] at h
            obtain ⟨hi, hst, -⟩ := h
            subst hi
            subst hst
            refine ⟨rfl, ⟨msg, rfl⟩, ReleaseResources_clean _ _, ?_⟩
            show st2.Instances = st.Instances
            have h1 := counterLoop_ok_frame os.sh name _ _ _ _ _ _ _ hcl
            have h2 := phase1_ok_frame os.sh name _ _ _ _ _ _ _ hph
            rw [h1, h2]
          next pid hsp => simp at h

/-- C5 counterexample: on a spawn failure the record is returned in `error`
status with the OS message, yet the resulting state's instance table does
not contain it — lookup of the failed name is `none`, refuting "kept in the
instance table". -/
theorem c5_counterexample :
    StartProcess c5OS emptyState c5Template "n" [] =
      (some c5Inst, emptyState, some .spawnFailed) ∧
    c5Inst.Status = "error" ∧ c5Inst.Error = "failed to start: boom" ∧
    emptyState.Instances.lookup "n" = none := by
  decide

/-- C5 witness: the amended theorem applied to the concrete failing start. -/
theorem c5_witness :
    StartProcess c5OS emptyState c5Template "n" [] =
      (some c5Inst, emptyState, some .spawnFailed) ∧
    (c5Inst.Status = "error" ∧ (∃ m, c5Inst.Error = "failed to start: " ++ m) ∧
     (∀ kv ∈ emptyState.Resources, kv.2.Owner ≠ "n") ∧
     emptyState.Instances = emptyState.Instances) :=
  ⟨by decide,
   c5_spawn_failure_record c5OS emptyState c5Template "n" [] c5Inst emptyState
     (by decide)⟩

theorem reclaim_err_shape (sh : Sh) (owner : String) :
    ∀ (l : List (String × String)) (st st1 : State) (e : RestartErr),
      reclaim sh owner l st = (st1, some e) →
      (∃ t, e = .typeMissing t) ∨ (∃ t v, e = .unavailable t v) := by
  intro l
  induction l with
  | nil =>
    intro st st1 e h
    simp [reclaim] at h
  | cons kv rest ih =>
    obtain ⟨rtype, value⟩ := kv
    intro st st1 e h
    rw [reclaim] at h
    split at h
    · simp only [Prod.mk.injEq, Option.some.injEq] at h
      obtain ⟨-, rfl⟩ := h
      exact Or.inl ⟨rtype, rfl⟩
    · split at h
      · exact ih _ _ _ h
      · simp only [Prod.mk.injEq, Option.some.injEq] at h
        obtain ⟨-, rfl⟩ := h
        exact Or.inr ⟨rtype, value, rfl⟩

/-- C2 (amended): every failing `Start` attempt (allocation, counter
interpolation, empty command or spawn failure) releases everything owned by
the new instance name before returning, so no partial allocation survives a
failed start; for `Restart`, rollback likewise happens on the empty-command
and spawn failures — but a re-validation failure (missing type or failed
check) returns without releasing the resources re-claimed earlier in the
same attempt (see the counterexample). -/
theorem c2_rollback_start_not_restart (os : StartOS) (st : State)
    (template : Template) (name : String) (vars : List (String × String))
    (hclean : ∀ kv ∈ st.Resources, kv.2.Owner ≠ name) :
    (∀ (i : Option Instance) (st' : State) (e : StartErr),
       StartProcess os st template name vars = (i, st', some e) →
       ∀ kv ∈ st'.Resources, kv.2.Owner ≠ name) ∧
    (∀ (st₀ : State) (inst : Instance) (st' : State) (inst' : Instance)
       (e : RestartErr),
       RestartProcess os st₀ inst = (st', inst', some e) →
       (e = .emptyCommand ∨ e = .spawnFailed) →
       ∀ kv ∈ st'.Resources, kv.2.Owner ≠ inst.Name) := by
  constructor
  · intro i st' e h
    simp only [StartProcess] at h
    split at h
    · obtain ⟨-, rfl, -⟩ : none = i ∧ st = st' ∧ _ = e := by simpa using h
      exact hclean
    next hex =>
      split at h
      next e' st'' res hph =>
        obtain ⟨-, rfl, -⟩ : _ = i ∧ st'' = st' ∧ _ = e := by simpa using h
        obtain ⟨s₀, rfl⟩ := phase1_error_release os.sh name _ _ _ _ _ _ _ hph
        exact ReleaseResources_clean _ _
      next st1 fv res1 hph =>
        split at h
        next e' st'' res' hcl =>
          obtain ⟨-, rfl, -⟩ : _ = i ∧ st'' = st' ∧ _ = e := by simpa using h
          obtain ⟨s₀, rfl⟩ := counterLoop_error_release os.sh name _ _ _ _ _ _ _ hcl
          exact ReleaseResources_clean _ _
        next st2 res2 cmdC hcl =>
          split at h
          next hparts =>
            obtain ⟨-, rfl, -⟩ : _ = i ∧ _ = st' ∧ _ = e := by simpa using h
            exact ReleaseResources_clean _ _
          next hparts =>
            split at h
            next msg hsp =>
              obtain ⟨-, rfl, -⟩ : _ = i ∧ _ = st' ∧ _ = e := by simpa using h
              exact ReleaseResources_clean _ _
            next pid hsp => simp at h
  · intro st₀ inst st' inst' e h hdisj
    simp only [RestartProcess] at h
    split at h
    · simp only [Prod.mk.injEq, Option.some.injEq] at h
      obtain ⟨-, -, rfl⟩ := h
      rcases hdisj with h' | h' <;> simp at h'
    · split at h
      next st1 e' hrec =>
        simp only [Prod.mk.injEq, Option.some.injEq] at h
        obtain ⟨-, -, rfl⟩ := h
        rcases reclaim_err_shape os.sh inst.Name _ _ _ _ hrec with ⟨t, rfl⟩ | ⟨t, v, rfl⟩ <;>
          rcases hdisj with h' | h' <;> simp at h'
      next st1 hrec =>
        split at h
        next hparts =>
          obtain ⟨rfl, -⟩ : _ = st' ∧ _ := by simpa using h
          exact ReleaseResources_clean _ _
        next hparts =>
          split at h
          next msg hsp =>
            obtain ⟨rfl, -⟩ : _ = st' ∧ _ := by simpa using h
            exact ReleaseResources_clean _ _
          next pid hsp => simp at h

/-- C2 counterexample: restarting a stopped instance whose `a=1` check
passes but whose `b=2` check fails returns the re-validation error with the
step-1 re-claim of `a=1` still present in the claims table — the claimed
full rollback does not happen on the Restart re-validation path. -/
theorem c2_counterexample :
    RestartProcess c2OS c2State c2Inst =
      (c2StateAfter, c2Inst, some (.unavailable "b" "2")) ∧
    ((("a", "1"), Resource.mk "a" "1" "i") ∈ c2StateAfter.Resources) := by
  decide

/-- C2 witness: the amended theorem applied at the concrete failing start of
the C5 fixture. -/
theorem c2_witness :
    (∀ kv ∈ emptyState.Resources, kv.2.Owner ≠ "n") ∧
    ((∀ (i : Option Instance) (st' : State) (e : StartErr),
        StartProcess c5OS emptyState c5Template "n" [] = (i, st', some e) →
        ∀ kv ∈ st'.Resources, kv.2.Owner ≠ "n") ∧
     (∀ (st₀ : State) (inst : Instance) (st' : State) (inst' : Instance)
        (e : RestartErr),
        RestartProcess c5OS st₀ inst = (st', inst', some e) →
        (e = .emptyCommand ∨ e = .spawnFailed) →
        ∀ kv ∈ st'.Resources, kv.2.Owner ≠ inst.Name)) :=
  ⟨by decide,
   c2_rollback_start_not_restart c5OS emptyState c5Template "n" [] (by decide)⟩

theorem lookup_setA [DecidableEq κ] (k : κ) (v : α) :
    ∀ l : List (κ × α), (setA k v l).lookup k = some v := by
  intro l
  induction l with
  | nil => simp [setA, List.lookup]
  | cons hd tl ih =>
    obtain ⟨k', v'⟩ := hd
    rw [setA]
    split
    next heq => subst heq; simp [List.lookup]
    next hne => simpa [List.lookup, beq_false_of_ne hne] using ih

theorem alloc_auto_ok (sh : Sh) (s : State) (t : String) (rt : ResourceType)
    (hty : s.Types.lookup t = some rt) (v : String) (s' : State)
    (h : AllocateResource sh s t "" = .ok (v, s')) :
    ∃ n : Int, v = toString n ∧
      probeFrom sh rt (rt.End + 1 - allocCursor s t rt).toNat (allocCursor s t rt) = some n ∧
      s' = { s with Counters := setA t (n + 1) s.Counters } := by
  simp only [AllocateResource, hty] at h
  split at h
  · split at h
    next n hp =>
      obtain ⟨rfl, rfl⟩ : toString n = v ∧ _ = s' := by simpa using h
      exact ⟨n, rfl, hp, rfl⟩
    next hp => simp at h
  · simp at h

/-- C6 (amended): for counter types with a positive `rangeStart` (and a
nonnegative persisted cursor — 0 being the unset sentinel), auto-allocation
probes ascending values from the cursor (or `rangeStart` when unset),
returns the first value whose check passes, advances the cursor to one past
the returned value, and returns strictly increasing values across
successive allocations; it fails with `RangeExhausted` exactly when every
value from the cursor to `rangeEnd` fails its check; concretely, with range
3000–3002 and all checks passing, three allocations return `3000`, `3001`,
`3002` and a fourth fails. (The positivity proviso is forced by the
counterexample: a range admitting the value -1 makes the cursor land on the
unset sentinel 0 and wrap back to `rangeStart`.) -/
theorem c6_counter_monotonic_progress (sh : Sh) (s : State) (t : String)
    (rt : ResourceType)
    (hty : s.Types.lookup t = some rt)
    (hstart : 1 ≤ rt.Start)
    (hcur : 0 ≤ counterOf s.Counters t) :
    (∀ (v : String) (s' : State), AllocateResource sh s t "" = .ok (v, s') →
      ∃ n : Int, v = toString n ∧
        allocCursor s t rt ≤ n ∧ n ≤ rt.End ∧
        CheckResource sh rt (toString n) = true ∧
        (∀ w, allocCursor s t rt ≤ w → w < n →
          CheckResource sh rt (toString w) = false) ∧
        counterOf s'.Counters t = n + 1 ∧
        (∀ (v2 : String) (s2 : State), AllocateResource sh s' t "" = .ok (v2, s2) →
          ∃ n2 : Int, v2 = toString n2 ∧ n < n2)) ∧
    (AllocateResource sh s t "" = .error (.rangeExhausted t rt.Start rt.End) ↔
      rt.Counter = true ∧
        ∀ w, allocCursor s t rt ≤ w → w ≤ rt.End →
          CheckResource sh rt (toString w) = false) ∧
    (AllocateResource shAllPass c6State "tcpport" "" = .ok ("3000", c6s1) ∧
     AllocateResource shAllPass c6s1 "tcpport" "" = .ok ("3001", c6s2) ∧
     AllocateResource shAllPass c6s2 "tcpport" "" = .ok ("3002", c6s3) ∧
     AllocateResource shAllPass c6s3 "tcpport" "" =
       .error (.rangeExhausted "tcpport" 3000 3002)) := by
  have hcur1 : 1 ≤ allocCursor s t rt := by
    unfold allocCursor
    split <;> omega
  refine ⟨?_, ?_, by decide⟩
  · intro v s' h
    obtain ⟨n, rfl, hp, rfl⟩ := alloc_auto_ok sh s t rt hty _ _ h
    obtain ⟨h1, h2, h3, h4⟩ := probeFrom_ok sh rt _ _ _ hp
    have hEnd : n ≤ rt.End := by omega
    refine ⟨n, rfl, h1, hEnd, h3, h4, ?_, ?_⟩
    · simp [counterOf, lookup_setA]
    · intro v2 s2 h2'
      obtain ⟨n2, rfl, hp2, rfl⟩ :=
        alloc_auto_ok sh { s with Counters := setA t (n + 1) s.Counters } t rt hty _ _ h2'
      obtain ⟨g1, -, -, -⟩ := probeFrom_ok sh rt _ _ _ hp2
      refine ⟨n2, rfl, ?_⟩
      have hcnew : counterOf (setA t (n + 1) s.Counters) t = n + 1 := by
        simp [counterOf, lookup_setA]
      have hcursor2 :
          allocCursor { s with Counters := setA t (n + 1) s.Counters } t rt = n + 1 := by
        unfold allocCursor
        simp only [hcnew]
        rw [if_neg (by omega)]
      rw [hcursor2] at g1
      omega
  · constructor
    · intro h
      simp only [AllocateResource, hty] at h
      split at h
      next hcc =>
        refine ⟨hcc.1, ?_⟩
        split at h
        next n hp => simp at h
        next hp =>
          intro w hw hw'
          exact (probeFrom_none sh rt _ _).mp hp w hw (by omega)
      next hcc => simp at h
    · rintro ⟨hc, hall⟩
      simp only [AllocateResource, hty]
      rw [if_pos ⟨hc, trivial⟩]
      have hp : probeFrom sh rt (rt.End + 1 - allocCursor s t rt).toNat
          (allocCursor s t rt) = none :=
        (probeFrom_none sh rt _ _).mpr (fun w hw hw' => hall w hw (by omega))
      rw [show ((if counterOf s.Counters t = 0 then rt.Start else counterOf s.Counters t) : Int) =
            allocCursor s t rt from rfl, hp]

/-- C6 counterexample: a counter type with range -1..0 and no check: the
first auto-allocation returns `-1` and advances the cursor to 0, which is
the "unset" sentinel, so the second auto-allocation resets to `rangeStart`
and returns `-1` again — values repeat instead of strictly increasing, and
the range wraps instead of exhausting. -/
theorem c6_counterexample :
    AllocateResource shAllPass c6NegState "g" "" = .ok ("-1", c6NegAfter) ∧
    AllocateResource shAllPass c6NegAfter "g" "" = .ok ("-1", c6NegAfter) := by
  decide

/-- C6 witness: the amended theorem applied to the scenario state (range
3000–3002, all checks passing, cursor unset). -/
theorem c6_witness :
    (c6State.Types.lookup "tcpport" = some tcpportRange ∧
     1 ≤ tcpportRange.Start ∧ 0 ≤ counterOf c6State.Counters "tcpport") ∧
    ((∀ (v : String) (s' : State),
        AllocateResource shAllPass c6State "tcpport" "" = .ok (v, s') →
        ∃ n : Int, v = toString n ∧
          allocCursor c6State "tcpport" tcpportRange ≤ n ∧ n ≤ tcpportRange.End ∧
          CheckResource shAllPass tcpportRange (toString n) = true ∧
          (∀ w, allocCursor c6State "tcpport" tcpportRange ≤ w → w < n →
            CheckResource shAllPass tcpportRange (toString w) = false) ∧
          counterOf s'.Counters "tcpport" = n + 1 ∧
          (∀ (v2 : String) (s2 : State),
            AllocateResource shAllPass s' "tcpport" "" = .ok (v2, s2) →
            ∃ n2 : Int, v2 = toString n2 ∧ n < n2)) ∧
     (AllocateResource shAllPass c6State "tcpport" "" =
        .error (.rangeExhausted "tcpport" tcpportRange.Start tcpportRange.End) ↔
      tcpportRange.Counter = true ∧
        ∀ w, allocCursor c6State "tcpport" tcpportRange ≤ w → w ≤ tcpportRange.End →
          CheckResource shAllPass tcpportRange (toString w) = false) ∧
     (AllocateResource shAllPass c6State "tcpport" "" = .ok ("3000", c6s1) ∧
      AllocateResource shAllPass c6s1 "tcpport" "" = .ok ("3001", c6s2) ∧
      AllocateResource shAllPass c6s2 "tcpport" "" = .ok ("3002", c6s3) ∧
      AllocateResource shAllPass c6s3 "tcpport" "" =
        .error (.rangeExhausted "tcpport" 3000 3002))) :=
  ⟨⟨by decide, by decide, by decide⟩,
   c6_counter_monotonic_progress shAllPass c6State "tcpport" tcpportRange
     (by decide) (by decide) (by decide)⟩

theorem instShape_refl (x : String × Instance) : instShape x x := ⟨rfl, rfl, rfl⟩

theorem matchInner_shape (alive : Int → Bool) (pid : Int)
    (procRes : List (String × String))
    (disc : Option (ProcessInfo × List ProcessInfo)) (now : Int) :
    ∀ l : List (String × Instance),
      List.Forall₂ instShape l (matchInner alive pid procRes disc now l).1 := by
  intro l
  cases disc with
  | none =>
    induction l with
    | nil => rw [matchInner]; exact .nil
    | cons x rest ih =>
      obtain ⟨n, i⟩ := x
      rw [matchInner]
      split
      · exact .cons (instShape_refl _) ih
      · split
        · exact .cons (instShape_refl _) ih
        · exact .cons (instShape_refl _) ih
  | some fp =>
    obtain ⟨fi, parents⟩ := fp
    induction l with
    | nil => rw [matchInner]; exact .nil
    | cons x rest ih =>
      obtain ⟨n, i⟩ := x
      rw [matchInner]
      split
      · exact .cons (instShape_refl _) ih
      · split
        · split
          · exact .cons ⟨rfl, rfl, rfl⟩
              (List.forall₂_same.mpr (fun y _ => instShape_refl y))
          · exact .cons (instShape_refl _) ih
        · exact .cons (instShape_refl _) ih

theorem matchInner_some (alive : Int → Bool) (pid : Int)
    (procRes : List (String × String))
    (disc : Option (ProcessInfo × List ProcessInfo)) (now : Int) :
    ∀ (l l' : List (String × Instance)) (n : String),
      matchInner alive pid procRes disc now l = (l', some n) →
      ∃ i', (n, i') ∈ l' ∧
        resourcesMatchB i'.Resources procRes = true ∧
        ∃ fi parents, disc = some (fi, parents) ∧
          commandMatchesB i'.Command (fi.Cmdline :: parents.map ProcessInfo.Cmdline) = true := by
  cases disc with
  | none =>
    intro l
    induction l with
    | nil =>
      intro l' n h
      rw [matchInner] at h
      simp at h
    | cons x rest ih =>
      obtain ⟨nm, i⟩ := x
      intro l' n h
      rw [matchInner] at h
      split at h <;>
        [skip; split at h] <;>
        · simp only [Prod.mk.injEq] at h
          obtain ⟨hl, hr⟩ := h
          have hh : matchInner alive pid procRes none now rest =
              ((matchInner alive pid procRes none now rest).1, some n) := by rw [← hr]
          obtain ⟨i', hmem, hconds⟩ := ih _ _ hh
          exact ⟨i', by rw [← hl]; exact List.mem_cons_of_mem _ hmem, hconds⟩
  | some fp =>
    obtain ⟨fi, parents⟩ := fp
    intro l
    induction l with
    | nil =>
      intro l' n h
      rw [matchInner] at h
      simp at h
    | cons x rest ih =>
      obtain ⟨nm, i⟩ := x
      intro l' n h
      rw [matchInner] at h
      split at h
      · simp only [Prod.mk.injEq] at h
        obtain ⟨hl, hr⟩ := h
        have hh : matchInner alive pid procRes (some (fi, parents)) now rest =
            ((matchInner alive pid procRes (some (fi, parents)) now rest).1, some n) := by
          rw [← hr]
        obtain ⟨i', hmem, hconds⟩ := ih _ _ hh
        exact ⟨i', by rw [← hl]; exact List.mem_cons_of_mem _ hmem, hconds⟩
      · split at h
        next hresM =>
          split at h
          next hcm =>
            simp only [Prod.mk.injEq, Option.some.injEq] at h
            obtain ⟨hl, rfl⟩ := h
            refine ⟨{ i with
                        PID := pid, Status := "running", Started := now,
                        ParentChain := parents,
                        LaunchScript := FindLaunchScript (fi :: parents) },
                    ?_, hresM, fi, parents, rfl, hcm⟩
            rw [← hl]
            exact List.mem_cons_self _ _
          next hcm =>
            simp only [Prod.mk.injEq] at h
            obtain ⟨hl, hr⟩ := h
            have hh : matchInner alive pid procRes (some (fi, parents)) now rest =
                ((matchInner alive pid procRes (some (fi, parents)) now rest).1, some n) := by
              rw [← hr]
            obtain ⟨i', hmem, hconds⟩ := ih _ _ hh
            exact ⟨i', by rw [← hl]; exact List.mem_cons_of_mem _ hmem, hconds⟩
        next hresM =>
          simp only [Prod.mk.injEq] at h
          obtain ⟨hl, hr⟩ := h
          have hh : matchInner alive pid procRes (some (fi, parents)) now rest =
              ((matchInner alive pid procRes (some (fi, parents)) now rest).1, some n) := by
            rw [← hr]
          obtain ⟨i', hmem, hconds⟩ := ih _ _ hh
          exact ⟨i', by rw [← hl]; exact List.mem_cons_of_mem _ hmem, hconds⟩

theorem forall2_instShape_fst :
    ∀ {l l' : List (String × Instance)}, List.Forall₂ instShape l l' →
      l.map Prod.fst = l'.map Prod.fst := by
  intro l l' h
  induction h with
  | nil => rfl
  | cons hxy htail ih => simp only [List.map_cons, ih, hxy.1]

theorem forall2_lookup_forward :
    ∀ {l l' : List (String × Instance)}, List.Forall₂ instShape l l' →
      ∀ (n : String) (i : Instance), l.lookup n = some i →
        ∃ i', l'.lookup n = some i' ∧ i.Resources = i'.Resources ∧
          i.Command = i'.Command := by
  intro l l' h
  induction h with
  | nil => intro n i h'; simp [List.lookup] at h'
  | @cons x y l₁ l₂ hxy htail ih =>
    obtain ⟨kx, ix⟩ := x
    obtain ⟨ky, iy⟩ := y
    obtain ⟨hk, hres, hcmd⟩ := hxy
    obtain rfl : kx = ky := hk
    intro n i hl
    rw [List.lookup] at hl
    rw [List.lookup]
    split at hl
    next heq =>
      obtain rfl : ix = i := by simpa using hl
      refine ⟨iy, ?_, hres, hcmd⟩
      simp [heq]
    next hne =>
      obtain ⟨i', hi', h1, h2⟩ := ih n i hl
      refine ⟨i', ?_, h1, h2⟩
      simpa [hne] using hi'

theorem lookup_of_mem_nodup :
    ∀ (l : List (String × Instance)) (n : String) (i : Instance),
      (l.map Prod.fst).Nodup → (n, i) ∈ l → l.lookup n = some i := by
  intro l
  induction l with
  | nil => intro n i _ h; simp at h
  | cons x rest ih =>
    obtain ⟨k, v⟩ := x
    intro n i hnd hmem
    rw [List.map_cons, List.nodup_cons] at hnd
    obtain ⟨hk, hrest⟩ := hnd
    rw [List.lookup]
    rcases (by simpa using hmem :
        (n = k ∧ i = v) ∨ (n, i) ∈ rest) with ⟨rfl, rfl⟩ | hmem'
    · simp
    · have hne : n ≠ k := fun hnk =>
        hk (hnk ▸ List.mem_map.mpr ⟨(n, i), hmem', rfl⟩)
      simpa [beq_false_of_ne hne] using ih n i hrest hmem'

theorem matchLoop_log (os : ScanOS) :
    ∀ (pids : List Int) (st : State) (log : List (String × Int)) (st' : State)
      (log' : List (String × Int)),
      matchLoop os pids st log = (st', log') →
      ∃ tail, log' = log ++ tail ∧ (tail.map Prod.snd).Sublist pids := by
  intro pids
  induction pids with
  | nil =>
    intro st log st' log' h
    obtain ⟨rfl, rfl⟩ : st = st' ∧ log = log' := by simpa [matchLoop] using h
    exact ⟨[], by simp, by simp⟩
  | cons pid rest ih =>
    intro st log st' log' h
    rw [matchLoop] at h
    split at h
    · obtain ⟨tail, rfl, hs⟩ := ih _ _ _ _ h
      exact ⟨tail, rfl, hs.cons pid⟩
    · dsimp only at h
      split at h
      next n hbind =>
        obtain ⟨tail, htail, hs⟩ := ih _ _ _ _ h
        refine ⟨(n, pid) :: tail, ?_, ?_⟩
        · rw [htail]; simp
        · simpa using hs.cons₂ pid
      next hbind =>
        obtain ⟨tail, rfl, hs⟩ := ih _ _ _ _ h
        exact ⟨tail, rfl, hs.cons pid⟩

theorem matchLoop_sound (os : ScanOS) :
    ∀ (pids : List Int) (st : State) (log : List (String × Int)) (st' : State)
      (log' : List (String × Int)),
      matchLoop os pids st log = (st', log') →
      (st.Instances.map Prod.fst).Nodup →
      (∀ np ∈ log, ∃ i, st.Instances.lookup np.1 = some i ∧
        bindCond os np.2 i.Resources i.Command) →
      ∀ np ∈ log', ∃ i, st'.Instances.lookup np.1 = some i ∧
        bindCond os np.2 i.Resources i.Command := by
  intro pids
  induction pids with
  | nil =>
    intro st log st' log' h hnd hacc
    obtain ⟨rfl, rfl⟩ : st = st' ∧ log = log' := by simpa [matchLoop] using h
    exact hacc
  | cons pid rest ih =>
    intro st log st' log' h hnd hacc
    rw [matchLoop] at h
    split at h
    · exact ih _ _ _ _ h hnd hacc
    next pinfo hread =>
      have hshape := matchInner_shape os.alive pid (procResourcesOf pinfo)
        (DiscoverProcess os.readInfo pid) os.now st.Instances
      have hfst := forall2_instShape_fst hshape
      have hnd' : (((matchInner os.alive pid (procResourcesOf pinfo)
          (DiscoverProcess os.readInfo pid) os.now st.Instances).1).map Prod.fst).Nodup := by
        rw [← hfst]; exact hnd
      dsimp only at h
      split at h
      next n hbind =>
        refine ih _ _ _ _ h hnd' ?_
        intro np hnp
        rcases List.mem_append.mp hnp with hnp' | hnp'
        · obtain ⟨i, hlook, hcond⟩ := hacc np hnp'
          obtain ⟨i', hlook', hres, hcmd⟩ := forall2_lookup_forward hshape np.1 i hlook
          rw [hres, hcmd] at hcond
          exact ⟨i', hlook', hcond⟩
        · obtain rfl : np = (n, pid) := by simpa using hnp'
          have hh : matchInner os.alive pid (procResourcesOf pinfo)
              (DiscoverProcess os.readInfo pid) os.now st.Instances =
              ((matchInner os.alive pid (procResourcesOf pinfo)
                (DiscoverProcess os.readInfo pid) os.now st.Instances).1, some n) := by
            rw [← hbind]
          obtain ⟨i', hmem, hresM, fi, parents, hdisc, hcmdM⟩ :=
            matchInner_some os.alive pid (procResourcesOf pinfo)
              (DiscoverProcess os.readInfo pid) os.now st.Instances _ n hh
          refine ⟨i', lookup_of_mem_nodup _ n i' hnd' hmem,
            pinfo, hread, hresM, fi, parents, hdisc, hcmdM⟩
      next hbind =>
        refine ih _ _ _ _ h hnd' ?_
        intro np hnp
        obtain ⟨i, hlook, hcond⟩ := hacc np hnp
        obtain ⟨i', hlook', hres, hcmd⟩ := forall2_lookup_forward hshape np.1 i hlook
        rw [hres, hcmd] at hcond
        exact ⟨i', hlook', hcond⟩

/-- C9: within one reconciliation pass, an instance is re-bound to a
discovered process only when both the resource-overlap condition and the
command-substring condition hold of it, and no two distinct instances are
bound to the same discovered PID (each scanned PID binds at most one
instance, and the scanned `/proc` PIDs are distinct). -/
theorem c9_reconcile_non_collision (os : ScanOS) (st : State)
    (hnd : os.procList.Nodup)
    (hnames : (st.Instances.map Prod.fst).Nodup)
    (st' : State) (log : List (String × Int))
    (h : MatchAndUpdateInstances os st = (st', log)) :
    (log.map Prod.snd).Nodup ∧
    ∀ np ∈ log, ∃ i, st'.Instances.lookup np.1 = some i ∧
      bindCond os np.2 i.Resources i.Command := by
  unfold MatchAndUpdateInstances at h
  constructor
  · obtain ⟨tail, htail, hs⟩ := matchLoop_log os _ _ _ _ _ h
    obtain rfl : log = tail := by simpa using htail
    exact hs.nodup ((List.filter_sublist _).nodup hnd)
  · exact matchLoop_sound os _ _ _ _ _ h hnames (by simp)

/-- C9 witness: the theorem applied to a concrete pass in which the stopped
instance `i` (port 7, command `srv`) is re-bound to discovered PID 9. -/
theorem c9_witness :
    (c9OS.procList.Nodup ∧ (c9State.Instances.map Prod.fst).Nodup ∧
     MatchAndUpdateInstances c9OS c9State = (c9StateAfter, [("i", (9 : Int))])) ∧
    (([(("i" : String), (9 : Int))].map Prod.snd).Nodup ∧
     ∀ np ∈ [(("i" : String), (9 : Int))],
       ∃ i, c9StateAfter.Instances.lookup np.1 = some i ∧
         bindCond c9OS np.2 i.Resources i.Command) :=
  ⟨⟨by decide, by decide, by decide⟩,
   c9_reconcile_non_collision c9OS c9State (by decide) (by decide) c9StateAfter
     [("i", 9)] (by decide)⟩

/-! ### Fuel sufficiency: the fueled loops agree with the source's unbounded
loops. `parentChainAux_fuel` above handles the parent walk; here the
string-replacement worker is shown fuel-indifferent at or above the input
length, and the `%counter` loop fuel-indifferent at or above the number of
percent signs (each iteration strictly decreases it, since counter values
are decimal integers and contain no percent sign). -/

theorem digitChar_ne_percent (n : Nat) : Nat.digitChar n ≠ '%' := by
  rcases Nat.lt_or_ge n 16 with h | h
  · interval_cases n <;> decide
  · unfold Nat.digitChar
    iterate 16 rw [if_neg (by omega)]
    decide

theorem toDigitsCore_ne_percent (b : Nat) :
    ∀ (fuel n : Nat) (ds : List Char), (∀ c ∈ ds, c ≠ '%') →
      ∀ c ∈ Nat.toDigitsCore b fuel n ds, c ≠ '%' := by
  intro fuel
  induction fuel with
  | zero =>
    intro n ds hds c hc
    simp only [Nat.toDigitsCore] at hc
    exact hds c hc
  | succ k ih =>
    intro n ds hds c hc
    simp only [Nat.toDigitsCore] at hc
    split at hc
    · rcases List.mem_cons.mp hc with rfl | hc'
      · exact digitChar_ne_percent _
      · exact hds c hc'
    · refine ih _ _ ?_ c hc
      intro c' hc'
      rcases List.mem_cons.mp hc' with rfl | hc''
      · exact digitChar_ne_percent _
      · exact hds c' hc''

theorem percent_not_mem_intToString (n : Int) :
    ∀ c ∈ (toString n).data, c ≠ '%' := by
  cases n with
  | ofNat m =>
    intro c hc
    have hd : (toString (Int.ofNat m)).data = Nat.toDigits 10 m := rfl
    rw [hd] at hc
    exact toDigitsCore_ne_percent 10 (m + 1) m [] (by simp) c hc
  | negSucc m =>
    intro c hc
    have hd : (toString (Int.negSucc m)).data = '-' :: Nat.toDigits 10 (m + 1) := rfl
    rw [hd] at hc
    rcases List.mem_cons.mp hc with rfl | hc'
    · decide
    · exact toDigitsCore_ne_percent 10 (m + 2) (m + 1) [] (by simp) c hc'

theorem listReplaceAux_fuel (pat val : List Char) :
    ∀ (f g : Nat) (s : List Char), s.length ≤ f → s.length ≤ g →
      listReplaceAux pat val f s = listReplaceAux pat val g s := by
  intro f
  induction f with
  | zero =>
    intro g s hf hg
    obtain rfl : s = [] := List.eq_nil_of_length_eq_zero (by omega)
    rw [listReplaceAux, listReplaceAux]
  | succ n ih =>
    intro g s hf hg
    cases s with
    | nil => rw [listReplaceAux, listReplaceAux]
    | cons a s' =>
      cases g with
      | zero => simp at hg
      | succ m =>
        rw [listReplaceAux, listReplaceAux]
        split
        next hcond =>
          obtain ⟨hne, -⟩ := hcond
          have hp : 1 ≤ pat.length := by
            cases pat with
            | nil => exact absurd rfl hne
            | cons x xs => simp
          have h1 : ((a :: s').drop pat.length).length ≤ n := by
            rw [List.length_drop]
            simp only [List.length_cons] at hf ⊢
            omega
          have h2 : ((a :: s').drop pat.length).length ≤ m := by
            rw [List.length_drop]
            simp only [List.length_cons] at hg ⊢
            omega
          rw [ih m _ h1 h2]
        next hcond =>
          have h1 : s'.length ≤ n := by simp only [List.length_cons] at hf; omega
          have h2 : s'.length ≤ m := by simp only [List.length_cons] at hg; omega
          rw [ih m s' h1 h2]

theorem findCounter_occurs :
    ∀ (s c : List Char), findCounter s = some c → ('%' :: c) <:+: s := by
  intro s
  induction s with
  | nil => intro c h; simp [findCounter] at h
  | cons a rest ih =>
    intro c h
    cases rest with
    | nil => simp [findCounter] at h
    | cons d rest' =>
      rw [findCounter] at h
      split at h
      next hcond =>
        obtain rfl : takeWord (d :: rest') = c := by simpa using h
        have ha : a = '%' := by
          have := ((Bool.and_eq_true _ _).mp hcond).1
          simpa using this
        subst ha
        refine List.IsPrefix.isInfix ?_
        obtain ⟨t, ht⟩ := List.takeWhile_prefix isWordChar (l := d :: rest')
        exact ⟨t, by rw [List.cons_append]; simp only [takeWord]; rw [ht]⟩
      next hcond =>
        exact (ih c h).trans (List.IsSuffix.isInfix (List.suffix_cons a (d :: rest')))

theorem countP_listReplaceAux_le (pat val : List Char) (p : Char → Bool)
    (hval : val.countP p = 0) :
    ∀ (fuel : Nat) (s : List Char),
      (listReplaceAux pat val fuel s).countP p ≤ s.countP p := by
  intro fuel
  induction fuel with
  | zero =>
    intro s
    cases s <;> rw [listReplaceAux]
  | succ k ih =>
    intro s
    cases s with
    | nil => rw [listReplaceAux]
    | cons a s' =>
      rw [listReplaceAux]
      split
      next hcond =>
        rw [List.countP_append, hval, Nat.zero_add]
        calc (listReplaceAux pat val k ((a :: s').drop pat.length)).countP p
            ≤ ((a :: s').drop pat.length).countP p := ih _
          _ ≤ (a :: s').countP p := (List.drop_sublist _ _).countP_le p
      next hcond =>
        rw [List.countP_cons, List.countP_cons]
        have := ih s'
        omega

theorem countP_listReplaceAux_lt (pat val : List Char) (p : Char → Bool)
    (hval : val.countP p = 0) (hpat : 0 < pat.countP p) :
    ∀ (fuel : Nat) (s : List Char), s.length ≤ fuel → pat <:+: s →
      (listReplaceAux pat val fuel s).countP p < s.countP p := by
  have hpne : pat ≠ [] := by
    intro hnil
    rw [hnil] at hpat
    simp at hpat
  intro fuel
  induction fuel with
  | zero =>
    intro s hlen hinf
    obtain rfl : s = [] := List.eq_nil_of_length_eq_zero (by omega)
    obtain rfl : pat = [] := List.eq_nil_of_sublist_nil hinf.sublist
    exact absurd rfl hpne
  | succ k ih =>
    intro s hlen hinf
    cases s with
    | nil =>
      obtain rfl : pat = [] := List.eq_nil_of_sublist_nil hinf.sublist
      exact absurd rfl hpne
    | cons a s' =>
      rw [listReplaceAux]
      split
      next hcond =>
        obtain ⟨-, hpre⟩ := hcond
        obtain ⟨t, ht⟩ := List.isPrefixOf_iff_prefix.mp hpre
        have hdrop : (a :: s').drop pat.length = t := by
          rw [← ht, List.drop_left]
        have h1 : (listReplaceAux pat val k ((a :: s').drop pat.length)).countP p
            ≤ t.countP p := by
          rw [hdrop]; exact countP_listReplaceAux_le pat val p hval k t
        have h2 : (a :: s').countP p = pat.countP p + t.countP p := by
          rw [← ht, List.countP_append]
        rw [List.countP_append, hval, Nat.zero_add]
        omega
      next hcond =>
        have hpre : ¬ pat.isPrefixOf (a :: s') = true := by
          intro hp
          exact hcond ⟨hpne, hp⟩
        have hinf' : pat <:+: s' := by
          rcases List.infix_cons_iff.mp hinf with hp | hi
          · exact absurd (List.isPrefixOf_iff_prefix.mpr hp) hpre
          · exact hi
        have hlen' : s'.length ≤ k := by
          simp only [List.length_cons] at hlen; omega
        have := ih s' hlen' hinf'
        rw [List.countP_cons, List.countP_cons]
        omega

theorem findCounter_percent_count (cmd c : List Char)
    (h : findCounter cmd = some c) : 1 ≤ countPercent cmd := by
  have hsub := (findCounter_occurs cmd c h).sublist
  have h2 : List.countP (· == '%') ('%' :: c) ≤ List.countP (· == '%') cmd :=
    hsub.countP_le _
  rw [List.countP_cons, if_pos (by decide)] at h2
  simp only [countPercent]
  omega

theorem alloc_auto_value (sh : Sh) (s : State) (t v : String) (s' : State)
    (h : AllocateResource sh s t "" = .ok (v, s')) : ∃ n : Int, v = toString n := by
  cases hty : s.Types.lookup t with
  | none => simp [AllocateResource, hty] at h
  | some rt =>
    obtain ⟨n, rfl, -, -⟩ := alloc_auto_ok sh s t rt hty v s' h
    exact ⟨n, rfl⟩

theorem counterLoop_none (sh : Sh) (name : String) (fuel : Nat) (st : State)
    (res : List (String × String)) (cmd : List Char)
    (hfc : findCounter cmd = none) :
    counterLoop sh name fuel st res cmd = .ok (st, res, cmd) := by
  rw [counterLoop]
  simp [hfc]

theorem counterLoop_succ (sh : Sh) (name : String) (n : Nat) (st : State)
    (res : List (String × String)) (cmd : List Char) (c : List Char)
    (hfc : findCounter cmd = some c) :
    counterLoop sh name (n + 1) st res cmd =
      match AllocateResource sh st (String.mk c) "" with
      | .error e => .error (e, st.ReleaseResources name, res)
      | .ok (value, st1) =>
        counterLoop sh name n (st1.ClaimResource (String.mk c) value name)
          (setA (String.mk c) value res) (listReplace ('%' :: c) value.data cmd) := by
  rw [counterLoop]
  simp [hfc]

theorem counterLoop_fuel (sh : Sh) (name : String) :
    ∀ (f g : Nat) (st : State) (res : List (String × String)) (cmd : List Char),
      countPercent cmd ≤ f → countPercent cmd ≤ g →
      counterLoop sh name f st res cmd = counterLoop sh name g st res cmd := by
  intro f
  induction f with
  | zero =>
    intro g st res cmd hf hg
    cases hfc : findCounter cmd with
    | none => rw [counterLoop_none sh name 0 st res cmd hfc,
                  counterLoop_none sh name g st res cmd hfc]
    | some c =>
      have := findCounter_percent_count cmd c hfc
      omega
  | succ n ih =>
    intro g st res cmd hf hg
    cases hfc : findCounter cmd with
    | none => rw [counterLoop_none sh name _ st res cmd hfc,
                  counterLoop_none sh name g st res cmd hfc]
    | some c =>
      cases g with
      | zero =>
        have := findCounter_percent_count cmd c hfc
        omega
      | succ m =>
        rw [counterLoop_succ sh name n st res cmd c hfc,
            counterLoop_succ sh name m st res cmd c hfc]
        cases ha : AllocateResource sh st (String.mk c) "" with
        | error e => rfl
        | ok pr =>
          obtain ⟨value, st1⟩ := pr
          obtain ⟨k, rfl⟩ := alloc_auto_value sh st (String.mk c) value st1 ha
          have hvz : (toString k).data.countP (· == '%') = 0 := by
            rw [List.countP_eq_zero]
            intro ch hch
            simpa using percent_not_mem_intToString k ch hch
          have hdec : countPercent (listReplace ('%' :: c) (toString k).data cmd) <
              countPercent cmd := by
            simp only [countPercent, listReplace]
            refine countP_listReplaceAux_lt ('%' :: c) (toString k).data (· == '%')
              hvz ?_ cmd.length cmd (le_refl _) (findCounter_occurs cmd c hfc)
            rw [List.countP_cons]
            simp
          exact ih m _ _ _ (by omega) (by omega)

theorem GetParentChain_fuel (ri : Int → Option ProcessInfo) (pid : Int) (f : Nat)
    (hf : 101 ≤ f) :
    parentChainAux ri f pid [] [] = GetParentChain ri pid :=
  parentChainAux_fuel ri f 101 pid [] [] (by simp) (by simpa) (by simp)
